import Mathlib

/-!
Verification development for the Requirement–Test-Case Matching & Traceability
Engine: a lexical retrieval index (`semantic_search.py`), a requirement
extractor and mapper (`mapping_engine.py`), and a traceability matrix builder
(`traceability_matrix.py`).

Python strings are modelled as `List Char` (`Str`), Python floats as exact
rationals `ℚ`, Python dicts that are used as insertion-ordered key/value maps
as association lists, and Python sets whose only use is membership testing as
lists.  `round(x, n)` is modelled with Mathlib's `round` (round half up; the
Python builtin rounds binary floats half to even — the two agree away from
exact half-way ties, which none of the statements below depend on).
Wall-clock timestamp fields (`mapping_date`, `generation_date`) are omitted
from the records, being pure environment reads.
-/

namespace SpecEngine

/-! ## Python string primitives -/

/-- Python `str` modelled as a list of characters. -/
abbrev Str := List Char

/-- Python `\s` (ASCII whitespace, as produced by `str.strip`/`str.split`). -/
def isPySpace (c : Char) : Bool :=
  c = ' ' || c = '\t' || c = '\n' || c = '\r' || c = '\x0b' || c = '\x0c'

/-- Python regex `\w` restricted to ASCII: alphanumeric or underscore. -/
def isWordChar (c : Char) : Bool := c.isAlphanum || c = '_'

/-- Python `str.lower()` (ASCII). -/
def lowerStr (s : Str) : Str := s.map Char.toLower

/-- Python `str.strip()`: drop leading and trailing whitespace. -/
def pyStrip (s : Str) : Str :=
  ((s.dropWhile isPySpace).reverse.dropWhile isPySpace).reverse

/-- `needle` is a prefix of `hay`. -/
def leadsWith : Str → Str → Bool
  | [], _ => true
  | _ :: _, [] => false
  | a :: as, b :: bs => a = b && leadsWith as bs

/-- Python `needle in hay` (substring test). -/
def strContainsB : Str → Str → Bool
  | [], needle => needle.isEmpty
  | hay@(_ :: t), needle => leadsWith needle hay || strContainsB t needle

/-- Maximal runs of characters satisfying `p` (accumulator holds the current
run, reversed). -/
def runsAux (p : Char → Bool) (acc : Str) : Str → List Str
  | [] => if acc.isEmpty then [] else [acc.reverse]
  | c :: cs =>
    if p c then runsAux p (c :: acc) cs
    else if acc.isEmpty then runsAux p [] cs
    else acc.reverse :: runsAux p [] cs

/-- Python `re.findall(r'\b\w+\b', s.lower())`: the maximal word-character
runs of the lowercased string. -/
def pyWords (s : Str) : List Str := runsAux isWordChar [] (lowerStr s)

/-- Python `str.split()` with no argument: maximal non-whitespace runs. -/
def pySplitWs (s : Str) : List Str := runsAux (fun c => !(isPySpace c)) [] s

/-- The token set of a string, as used by the keyword index:
`set(re.findall(r'\b\w+\b', s.lower()))`. -/
def wordSet (s : Str) : Finset Str := (pyWords s).toFinset

/-- Decimal digits of a natural number (fuel-driven so that it reduces in the
kernel). -/
def natDigitsAux : Nat → Nat → Str
  | 0, _ => []
  | fuel + 1, n =>
    if n < 10 then [Nat.digitChar n]
    else natDigitsAux fuel (n / 10) ++ [Nat.digitChar (n % 10)]

/-- Python `str(n)` for a natural number. -/
def natDigits (n : Nat) : Str := natDigitsAux (n + 1) n

/-! ## The Jaccard similarity primitive

`semantic_search.py` computes, for two token sets, `len(a & b) / len(a | b)`
when the union is non-empty and `0.0` otherwise. -/

/-- Jaccard similarity over token sets (`|A∩B| / |A∪B|`, `0` when the union
is empty). -/
def jaccard (a b : Finset Str) : ℚ :=
  if a ∪ b = ∅ then 0 else ((a ∩ b).card : ℚ) / ((a ∪ b).card : ℚ)

/-- Jaccard similarity of the word sets of two strings. -/
def jaccardWords (a b : Str) : ℚ := jaccard (wordSet a) (wordSet b)

/-! ## `semantic_search.py`

The module keeps one global `chunks` list; it is passed explicitly here.
An index that was never (successfully) built is the initial `chunks = []`. -/

/-- One record of `get_similarity_scores` / one scored tuple of `search`. -/
structure SimScore where
  chunk : Str
  similarity : ℚ
  index : Nat
deriving DecidableEq, Repr

/-- Sorting key for `scored.sort(key=lambda x: x[0]... reverse=True)` /
`results.sort(key=lambda x: x['similarity'], reverse=True)`: Python's sort is
stable and the lists being sorted carry strictly increasing `index` fields,
so the stable descending sort by similarity produces exactly the order
"similarity descending, then original index ascending". -/
def simScoreLe (a b : SimScore) : Prop :=
  b.similarity < a.similarity ∨ (a.similarity = b.similarity ∧ a.index ≤ b.index)

instance : DecidableRel simScoreLe := fun a b => by
  unfold simScoreLe; infer_instance

instance : IsTotal SimScore simScoreLe where
  total a b := by
    unfold simScoreLe
    rcases lt_trichotomy a.similarity b.similarity with h | h | h
    · exact Or.inr (Or.inl h)
    · rcases Nat.le_total a.index b.index with hi | hi
      · exact Or.inl (Or.inr ⟨h, hi⟩)
      · exact Or.inr (Or.inr ⟨h.symm, hi⟩)
    · exact Or.inl (Or.inl h)

instance : IsTrans SimScore simScoreLe where
  trans a b c hab hbc := by
    unfold simScoreLe at *
    rcases hab with h1 | ⟨e1, i1⟩
    · rcases hbc with h2 | ⟨e2, _⟩
      · exact Or.inl (h2.trans h1)
      · exact Or.inl (e2 ▸ h1)
    · rcases hbc with h2 | ⟨e2, i2⟩
      · exact Or.inl (by rw [e1]; exact h2)
      · exact Or.inr ⟨e1.trans e2, i1.trans i2⟩

/-- `build_index(text_chunks)`: fails on an empty chunk list, otherwise the
new global `chunks` is the given list. -/
def build_index (text_chunks : List Str) : Except Str (List Str) :=
  if text_chunks = [] then .error ("No text chunks provided".toList)
  else .ok text_chunks

/-- The loop body of `search`: a chunk is scored (and kept) exactly when its
word-set union with the query is non-empty. -/
def scoreChunk (query_text : Str) (ic : Nat × Str) : Option SimScore :=
  if wordSet query_text ∪ wordSet ic.2 ≠ ∅ then
    some (⟨ic.2,
      ((wordSet query_text ∩ wordSet ic.2).card : ℚ) /
        ((wordSet query_text ∪ wordSet ic.2).card : ℚ), ic.1⟩ : SimScore)
  else none

/-- The `scored_chunks` list of `search`: chunks whose word-set union with
the query is non-empty, scored, tagged with their original position. -/
def searchScored (chunks : List Str) (query_text : Str) : List SimScore :=
  chunks.enum.filterMap (scoreChunk query_text)

/-- `scored_chunks.sort(key=lambda x: x[0], reverse=True)` (stable). -/
def searchSorted (chunks : List Str) (query_text : Str) : List SimScore :=
  List.insertionSort simScoreLe (searchScored chunks query_text)

/-- `search(query_text, top_k)`: scores every chunk whose word-set union with
the query is non-empty, sorts by similarity descending (stable), takes the
top `k` texts, and falls back to the first `k` chunks when that list is
empty.  Fails when the index holds no chunks.  (The `try/except` wrapper of
the source can only re-raise exceptions of the string primitives, which are
total here.) -/
def search (chunks : List Str) (query_text : Str) (top_k : Nat) :
    Except Str (List Str) :=
  if chunks = [] then
    .error ("Index not built yet. Please upload a document first.".toList)
  else
    let results := ((searchSorted chunks query_text).take top_k).map (·.chunk)
    .ok (if results = [] then chunks.take top_k else results)

/-- `get_similarity_scores(query_text, top_k)`: scores every chunk (0 when
the union is empty), sorts descending, returns the top `k` records; returns
`[]` when no chunks exist. -/
def get_similarity_scores (chunks : List Str) (query_text : Str) (top_k : Nat) :
    List SimScore :=
  if chunks = [] then []
  else
    let results := chunks.enum.map fun ic =>
      (⟨ic.2, jaccardWords query_text ic.2, ic.1⟩ : SimScore)
    (List.insertionSort simScoreLe results).take top_k

/-! ## `mapping_engine.py` — requirement extraction

`MappingEngine.extract_requirements` runs the `enhanced_patterns` regular
expressions over each chunk.  The regexes are embedded as direct scanning
functions with Python `re` semantics: case-insensitive literals, ordered
alternation with backtracking, greedy `[_\-\s]*` (its class is disjoint from
`\d`, so maximal munch is exact), and a final numeric capture `(\d+\.?\d*)`
that is required, optional or absent depending on the pattern. -/

/-- The class `[_\-\s]` of the separator star in the requirement patterns. -/
def isSepChar (c : Char) : Bool := c = '_' || c = '-' || isPySpace c

/-- A sentence delimiter of `re.split(r'[.!?]+', text)`. -/
def isSentDelim (c : Char) : Bool := c = '.' || c = '!' || c = '?'

/-- `re.split(r'[.!?]+', text)`: pieces between maximal delimiter runs
(empty pieces at the ends are kept, as in Python).  The flag records whether
the previous character was part of a delimiter run. -/
def splitDelimAux (p : Char → Bool) (inDelim : Bool) (acc : Str) :
    Str → List Str
  | [] => [acc.reverse]
  | c :: cs =>
    if p c then
      if inDelim then splitDelimAux p true [] cs
      else acc.reverse :: splitDelimAux p true [] cs
    else splitDelimAux p false (c :: acc) cs

/-- `re.split` on a character-class-plus pattern. -/
def splitDelim (p : Char → Bool) (s : Str) : List Str :=
  splitDelimAux p false [] s

/-- `MappingEngine._split_into_sentences`: split on `[.!?]+`, strip, drop
empties. -/
def split_into_sentences (text : Str) : List Str :=
  ((splitDelim isSentDelim text).map pyStrip).filter (· ≠ [])

/-- Case-insensitive literal match: the pattern literal is stored lowercase;
on success the unconsumed rest of the subject is returned. -/
def matchLitCI : Str → Str → Option Str
  | [], s => some s
  | _ :: _, [] => none
  | p :: ps, c :: cs => if c.toLower = p then matchLitCI ps cs else none

/-- The numeric capture `(\d+\.?\d*)` (greedy, maximal munch is exact since
nothing follows the group in any pattern): the captured text and the rest. -/
def matchNum (s : Str) : Option (Str × Str) :=
  let d1 := s.takeWhile Char.isDigit
  if d1 = [] then none
  else
    let r1 := s.drop d1.length
    match r1 with
    | '.' :: r2 =>
      let d2 := r2.takeWhile Char.isDigit
      some (d1 ++ '.' :: d2, r2.drop d2.length)
    | _ => some (d1, r1)

/-- The group-free part of a requirement pattern. -/
inductive PatBody where
  /-- An ordered alternation of case-insensitive literals,
  e.g. `(?:FR|functional requirement|requirement)`. -/
  | alts (ls : List Str)
  /-- `(?:NFR|non.?functional)` — `.` is any non-newline character and `.?`
  is greedy. -/
  | nonfunc
  /-- `as a .* I want .* so that` — both `.*` greedy, confined to one line. -/
  | asa
deriving DecidableEq

/-- Candidate rests for `(?:NFR|non.?functional)` in backtracking priority
order. -/
def nonfuncCandidates (s : Str) : List Str :=
  (matchLitCI "nfr".toList s).toList ++
    match matchLitCI "non".toList s with
    | none => []
    | some r =>
      (match r with
       | c :: r2 =>
         if c ≠ '\n' then (matchLitCI "functional".toList r2).toList else []
       | [] => []) ++
      (matchLitCI "functional".toList r).toList

/-- Candidate rest for `as a .* I want .* so that`: both stars are greedy
with backtracking (largest split first), and `.` does not cross a newline. -/
def asaCandidates (s : Str) : List Str :=
  match matchLitCI "as a ".toList s with
  | none => []
  | some r =>
    let line := r.takeWhile (· ≠ '\n')
    let rest := r.drop line.length
    ((List.range (line.length + 1)).reverse.findSome? fun i =>
      if (matchLitCI " i want ".toList (line.drop i)).isSome then
        let afterWant := line.drop (i + 8)
        (List.range (afterWant.length + 1)).reverse.findSome? fun j =>
          if (matchLitCI " so that".toList (afterWant.drop j)).isSome then
            some (afterWant.drop (j + 8) ++ rest)
          else none
      else none).toList

/-- All candidate rests of a pattern body at the current position, in
backtracking priority order. -/
def bodyCandidates : PatBody → Str → List Str
  | .alts ls, s => ls.filterMap (fun l => matchLitCI l s)
  | .nonfunc, s => nonfuncCandidates s
  | .asa, s => asaCandidates s

/-- Whether the trailing `[_\-\s]*(\d+\.?\d*)` of a pattern is required
(`(…)`), optional (`(…)?`) or absent. -/
inductive GroupSpec where
  | required
  | optional
  | nogroup
deriving DecidableEq

/-- One `enhanced_patterns` regex. -/
structure Pat where
  body : PatBody
  group : GroupSpec
deriving DecidableEq

/-- Attempt a full pattern match given the body candidates: consumed length
and captured group.  For a required group, failing candidates backtrack to
the next alternative (`[_\-\s]` contains no digit, so the separator star
itself never backtracks). -/
def seqGroup (total : Nat) (g : GroupSpec) (rests : List Str) :
    Option (Nat × Option Str) :=
  match g with
  | .nogroup => rests.head?.map fun r => (total - r.length, none)
  | .optional => rests.head?.map fun r =>
      let r2 := r.dropWhile isSepChar
      match matchNum r2 with
      | some gr => (total - gr.2.length, some gr.1)
      | none => (total - r2.length, none)
  | .required => rests.findSome? fun r =>
      let r2 := r.dropWhile isSepChar
      (matchNum r2).map fun gr => (total - gr.2.length, some gr.1)

/-- `re`-style match attempt of a pattern at the start of `s`. -/
def matchPatAt (p : Pat) (s : Str) : Option (Nat × Option Str) :=
  seqGroup s.length p.group (bodyCandidates p.body s)

/-- `re.finditer`: scan left to right, emit non-overlapping matches
`(start, end, group)`, resuming after each match (all patterns consume at
least one character; `max len 1` mirrors Python's advance on the impossible
empty match).  Fuel-driven so that it reduces in the kernel. -/
def finditerAux (p : Pat) : Nat → Str → Nat → List (Nat × Nat × Option Str)
  | 0, _, _ => []
  | _ + 1, [], _ => []
  | fuel + 1, s@(_ :: _), pos =>
    match matchPatAt p s with
    | some lg =>
      let adv := max lg.1 1
      (pos, pos + lg.1, lg.2) :: finditerAux p fuel (s.drop adv) (pos + adv)
    | none => finditerAux p fuel (s.drop 1) (pos + 1)

/-- All matches of a pattern in a chunk. -/
def finditer (p : Pat) (s : Str) : List (Nat × Nat × Option Str) :=
  finditerAux p (s.length + 1) s 0

/-- The `enhanced_patterns` dict of `extract_requirements`, flattened in
iteration order (`functional`, `non_functional`, `user_story`). -/
def allPatterns : List (Str × Pat) :=
  [("functional".toList,
    ⟨.alts ["fr".toList, "functional requirement".toList, "requirement".toList],
     .required⟩),
   ("functional".toList, ⟨.alts ["req".toList, "requirement".toList], .required⟩),
   ("functional".toList, ⟨.alts ["the system shall".toList], .optional⟩),
   ("functional".toList, ⟨.alts ["the system must".toList], .optional⟩),
   ("functional".toList, ⟨.alts ["function".toList], .required⟩),
   ("non_functional".toList, ⟨.nonfunc, .required⟩),
   ("non_functional".toList,
    ⟨.alts ["performance".toList, "security".toList, "usability".toList],
     .required⟩),
   ("non_functional".toList,
    ⟨.alts ["quality".toList, "reliability".toList], .required⟩),
   ("user_story".toList, ⟨.alts ["us".toList, "user story".toList], .required⟩),
   ("user_story".toList, ⟨.asa, .nogroup⟩),
   ("user_story".toList, ⟨.alts ["story".toList], .required⟩)]

/-- `MappingEngine._extract_requirement_content_enhanced`, inner loop: find
the first sentence whose `[current_pos, current_pos + len + 1]` span contains
the match start and join it with its stripped neighbors by `". "`. -/
def contentLoop (target : Nat) (prev : Option Str) (cur : Nat) :
    List Str → Option Str
  | [] => none
  | sen :: rest =>
    let slen := sen.length + 1
    if cur ≤ target ∧ target ≤ cur + slen then
      let parts :=
        (match prev with | some p => [pyStrip p] | none => []) ++
        [pyStrip sen] ++
        (match rest with | r :: _ => [pyStrip r] | [] => [])
      some (List.intercalate ". ".toList parts)
    else contentLoop target (some sen) (cur + slen) rest

/-- `MappingEngine._extract_requirement_content_enhanced`: sentence context
around a match, with a ±150-character window as fallback. -/
def extractContentEnh (text : Str) (s e : Nat) : Str :=
  match contentLoop s none 0 (splitDelim isSentDelim text) with
  | some c => c
  | none => (text.drop (s - 150)).take (min text.length (e + 150) - (s - 150))

/-- `MappingEngine._determine_priority`: keyword buckets checked in order
(substring tests on the lowercased content). -/
def determinePriority (content : Str) : Str :=
  let cl := lowerStr content
  let anyKw := fun (ks : List Str) => ks.any (fun k => strContainsB cl k)
  if anyKw ["critical".toList, "essential".toList, "must".toList,
            "required".toList, "mandatory".toList, "shall".toList] then
    "high".toList
  else if anyKw ["should".toList, "important".toList, "recommended".toList] then
    "medium".toList
  else if anyKw ["may".toList, "could".toList, "optional".toList,
                 "nice to have".toList] then
    "low".toList
  else "medium".toList

/-- `MappingEngine._categorize_requirement`: first category whose keyword
bucket hits (dict iteration order). -/
def categorizeReq (content : Str) : Str :=
  let cl := lowerStr content
  let hits := fun (ks : List Str) => ks.any (fun k => strContainsB cl k)
  if hits ["login".toList, "password".toList, "authentication".toList,
           "credential".toList, "user access".toList] then
    "authentication".toList
  else if hits ["validate".toList, "validation".toList, "verify".toList,
                "check".toList, "ensure".toList] then
    "validation".toList
  else if hits ["display".toList, "show".toList, "interface".toList,
                "ui".toList, "user interface".toList, "screen".toList] then
    "interface".toList
  else if hits ["data".toList, "database".toList, "store".toList,
                "save".toList, "retrieve".toList, "record".toList] then
    "data".toList
  else if hits ["security".toList, "secure".toList, "permission".toList,
                "authorization".toList, "access control".toList] then
    "security".toList
  else if hits ["performance".toList, "speed".toList, "response time".toList,
                "load".toList, "scalability".toList] then
    "performance".toList
  else if hits ["integration".toList, "api".toList, "external".toList,
                "third party".toList, "interface".toList] then
    "integration".toList
  else "general".toList

/-- One extracted requirement record (the dict built by
`_extract_requirements_from_chunk_enhanced`; `rtype` is the `'type'` key). -/
structure Requirement where
  id : Str
  rtype : Str
  content : Str
  chunk_index : Nat
  priority : Str
  category : Str
  validation_status : Str
deriving DecidableEq, Repr

/-- Python `str.upper()` (ASCII), for `req_type.upper()`. -/
def tyUpper (ty : Str) : Str := ty.map Char.toUpper

/-- The dedup fingerprint: the source uses
`hash(content.strip()[:100])` (and `hash("")` for all-whitespace content);
it is modelled as the trimmed content truncated to 100 characters, which
separates exactly the same candidates a collision-free string hash does. -/
def fpOfContent (c : Str) : Str := (pyStrip c).take 100

/-- Extraction state: the chunk-local requirement list and the
`processed_content` fingerprint set (shared across the whole call). -/
abbrev ExtAcc := List Requirement × List Str

/-- One pattern match turned into a requirement and emitted unless its
content fingerprint was already seen (`match.groups() and match.group(1)`
chooses the numbered id; otherwise the positional id uses the current
chunk-local count). -/
def stepPattern (chunk : Str) (chunkIdx : Nat) (ty : Str) (acc : ExtAcc)
    (m : Nat × Nat × Option Str) : ExtAcc :=
  let content := extractContentEnh chunk m.1 m.2.1
  let fp := fpOfContent content
  if fp ∈ acc.2 then acc
  else
    let rid := match m.2.2 with
      | some g => tyUpper ty ++ '_' :: g
      | none =>
        tyUpper ty ++ '_' :: natDigits chunkIdx ++ '_' :: natDigits acc.1.length
    (acc.1 ++
      [{ id := rid, rtype := ty, content := pyStrip content,
         chunk_index := chunkIdx, priority := determinePriority content,
         category := categorizeReq content,
         validation_status := "pending".toList }],
     fp :: acc.2)

/-- One sentence of the generic fallback (`REQ_<chunkIdx>_<i>` ids, only
sentences longer than 60 characters, same fingerprint dedup). -/
def stepFallback (chunkIdx : Nat) (acc : ExtAcc) (ev : Nat × Str) : ExtAcc :=
  if (pyStrip ev.2).length > 60 then
    let fp := fpOfContent ev.2
    if fp ∈ acc.2 then acc
    else
      (acc.1 ++
        [{ id := "REQ_".toList ++ natDigits chunkIdx ++ '_' :: natDigits ev.1,
           rtype := "general".toList, content := pyStrip ev.2,
           chunk_index := chunkIdx, priority := "medium".toList,
           category := "general".toList,
           validation_status := "pending".toList }],
       fp :: acc.2)
  else acc

/-- All matches of one pattern folded into the extraction state. -/
def chunkPatStep (chunk : Str) (chunkIdx : Nat) (acc : ExtAcc)
    (p : Str × Pat) : ExtAcc :=
  (finditer p.2 chunk).foldl (stepPattern chunk chunkIdx p.1) acc

/-- `MappingEngine._extract_requirements_from_chunk_enhanced`: run every
pattern family over the chunk; if no candidate survives, fall back to
per-sentence generic requirements. -/
def extractFromChunk (chunk : Str) (chunkIdx : Nat) (fps : List Str) : ExtAcc :=
  let patPhase := allPatterns.foldl (chunkPatStep chunk chunkIdx) (([], fps) : ExtAcc)
  if patPhase.1 = [] then
    (split_into_sentences chunk).enum.foldl (stepFallback chunkIdx) patPhase
  else patPhase

/-- Python string `<=` (lexicographic on code points), for
`requirements.sort(key=lambda x: x['id'])`. -/
def strLeB : Str → Str → Bool
  | [], _ => true
  | _ :: _, [] => false
  | a :: as, b :: bs => if a = b then strLeB as bs else decide (a < b)

/-- The sort key relation of `extract_requirements`'s final sort. -/
def reqIdLe (a b : Requirement) : Prop := strLeB a.id b.id = true

instance : DecidableRel reqIdLe := fun a b => by
  unfold reqIdLe; infer_instance

/-- One chunk of `extract_requirements`'s main loop: chunks shorter than 50
characters (stripped) are skipped; otherwise the chunk's extraction extends
the global list, sharing the fingerprint set. -/
def extractStep (acc : ExtAcc) (ci : Nat × Str) : ExtAcc :=
  if (pyStrip ci.2).length < 50 then acc
  else
    let ex := extractFromChunk ci.2 ci.1 acc.2
    (acc.1 ++ ex.1, ex.2)

/-- `MappingEngine.extract_requirements`: extract per chunk with a shared
fingerprint set, then sort the result by id. -/
def extract_requirements (text_chunks : List Str) : List Requirement :=
  List.insertionSort reqIdLe (text_chunks.enum.foldl extractStep (([], []) : ExtAcc)).1

/-! ## `mapping_engine.py` — test-case ↔ requirement mapping

Test cases are modelled as well-formed records (the `isinstance(tc, dict)`
ingress filter is the identity on them, and the `str`-or-list field coercion
of `_find_matching_requirements` is taken in its string branch). -/

/-- A well-formed test-case record (the fields the engine reads; `ttype` is
the `'type'` key).  A missing/`None` `requirement_id` is `none`. -/
structure TestCase where
  id : Str
  title : Str
  description : Str
  steps : Str
  query : Str
  requirement_id : Option Str
  ttype : Str
  priority : Str
  status : Str
deriving DecidableEq, Repr

/-- One entry of `mapped_requirements`. -/
structure ReqMatch where
  requirement_id : Str
  similarity_score : ℚ
  content : Str
deriving DecidableEq, Repr

/-- `content[:200] + "..." if len(content) > 200 else content`. -/
def excerpt200 (c : Str) : Str :=
  if c.length > 200 then c.take 200 ++ "...".toList else c

/-- The composite test-case text of `_find_matching_requirements`:
`" ".join([title, description, steps, query]).strip()`. -/
def compositeText (tc : TestCase) : Str :=
  pyStrip (tc.title ++ ' ' :: tc.description ++ ' ' :: tc.steps ++ ' ' :: tc.query)

/-- One step of the `unique_matches` dict accumulation:
`if req_id not in unique_matches or better: unique_matches[req_id] = match`
(an in-place value update that keeps the key's first-seen position). -/
def dedupStep (acc : List ReqMatch) (m : ReqMatch) : List ReqMatch :=
  if acc.any (fun m0 => m0.requirement_id = m.requirement_id) then
    acc.map fun m0 =>
      if m0.requirement_id = m.requirement_id ∧
          m0.similarity_score < m.similarity_score then m
      else m0
  else acc ++ [m]

/-- The `unique_matches` dict: keyed by requirement id in first-seen order,
keeping the entry with the larger similarity. -/
def dedupMaxById (ms : List ReqMatch) : List ReqMatch := ms.foldl dedupStep []

/-- Sort key of `sorted(unique_matches.values(), key=..., reverse=True)`:
stable descending sort by similarity, expressed on position-tagged entries
(similarity descending, then first-seen position ascending). -/
def matchPosLe (a b : Nat × ReqMatch) : Prop :=
  b.2.similarity_score < a.2.similarity_score ∨
    (a.2.similarity_score = b.2.similarity_score ∧ a.1 ≤ b.1)

instance : DecidableRel matchPosLe := fun a b => by
  unfold matchPosLe; infer_instance

instance : IsTotal (Nat × ReqMatch) matchPosLe where
  total a b := by
    unfold matchPosLe
    rcases lt_trichotomy a.2.similarity_score b.2.similarity_score with h | h | h
    · exact Or.inr (Or.inl h)
    · rcases Nat.le_total a.1 b.1 with hi | hi
      · exact Or.inl (Or.inr ⟨h, hi⟩)
      · exact Or.inr (Or.inr ⟨h.symm, hi⟩)
    · exact Or.inl (Or.inl h)

instance : IsTrans (Nat × ReqMatch) matchPosLe where
  trans a b c hab hbc := by
    unfold matchPosLe at *
    rcases hab with h1 | ⟨e1, i1⟩
    · rcases hbc with h2 | ⟨e2, _⟩
      · exact Or.inl (h2.trans h1)
      · exact Or.inl (e2 ▸ h1)
    · rcases hbc with h2 | ⟨e2, i2⟩
      · exact Or.inl (by rw [e1]; exact h2)
      · exact Or.inr ⟨e1.trans e2, i1.trans i2⟩

/-- One step of the candidate-collection loop of
`_find_matching_requirements`: a scored chunk above the 0.3 threshold is
resolved to the first requirement whose content is a substring of — or
contains — the chunk text (`break` after the first hit). -/
def candStep (requirements : List Requirement) (acc : List ReqMatch)
    (sr : SimScore) : List ReqMatch :=
  if (3 : ℚ) / 10 < sr.similarity then
    match requirements.find? (fun r =>
        strContainsB sr.chunk r.content || strContainsB r.content sr.chunk) with
    | some r => acc ++ [⟨r.id, sr.similarity, excerpt200 r.content⟩]
    | none => acc
  else acc

/-- `MappingEngine._find_matching_requirements` (threshold 0.3): score the
composite text against the chunk index, keep scored chunks above the
threshold, resolve each to the first requirement whose content is a
substring of — or contains — the chunk text, dedup by id keeping the maximal
similarity, sort descending, return the top 3.  (The `except` fallback of
the source only triggers on exceptions, which the total primitives here
cannot raise.) -/
def find_matching_requirements (chunks : List Str) (test_case : TestCase)
    (requirements : List Requirement) : List ReqMatch :=
  if requirements = [] then []
  else
    let test_content := compositeText test_case
    if test_content = [] then []
    else
      let sims := get_similarity_scores chunks test_content requirements.length
      let matched := sims.foldl (candStep requirements) []
      let uniq := dedupMaxById matched
      ((List.insertionSort matchPosLe uniq.enum).map (·.2)).take 3

/-- `MappingEngine._keyword_based_matching` (the exception fallback of the
mapper; unreachable for well-formed records, embedded for completeness). -/
def keyword_based_matching (test_case : TestCase)
    (requirements : List Requirement) : List ReqMatch :=
  let test_content :=
    lowerStr (test_case.title ++ ' ' :: test_case.description ++ ' ' ::
      test_case.steps ++ ' ' :: test_case.query)
  let testKw := (pyWords test_content).toFinset
  requirements.foldl
    (fun acc r =>
      let s := jaccard testKw (wordSet r.content)
      if (3 : ℚ) / 10 < s ∧ testKw ∪ wordSet r.content ≠ ∅ then
        acc ++ [⟨r.id, s, excerpt200 r.content⟩]
      else acc)
    []

/-- Python `round(x, 3)` over exact rationals. -/
def pyRound3 (q : ℚ) : ℚ := (round (q * 1000) : ℚ) / 1000

/-- `MappingEngine._calculate_mapping_confidence`: 0.0 with no matches, else
the maximal match similarity, +0.2 capped at 1.0 when the explicit
`requirement_id` (present and truthy) is among the matched ids, ×0.8 when
more than two matches survive, rounded to 3 decimals. -/
def calculate_mapping_confidence (test_case : TestCase)
    (mapped : List ReqMatch) : ℚ :=
  match mapped with
  | [] => 0
  | m :: ms =>
    let maxSim := ms.foldl (fun a b => max a b.similarity_score) m.similarity_score
    let boosted := match test_case.requirement_id with
      | some rid =>
        if rid ≠ [] ∧ (m :: ms).any (fun r => r.requirement_id = rid) then
          min 1 (maxSim + 2 / 10)
        else maxSim
      | none => maxSim
    let finalv := if (m :: ms).length > 2 then boosted * (8 / 10) else boosted
    pyRound3 finalv

/-- One `mapping_result` dict (the wall-clock `mapping_date` is omitted). -/
structure MappingResult where
  test_case_id : Str
  test_case_title : Str
  mapped_requirements : List ReqMatch
  mapping_confidence : ℚ
  mapping_method : Str
deriving DecidableEq, Repr

/-- `MappingEngine.map_test_cases_to_requirements`: one result per
(well-formed) test case; the method tag is the constant
`'semantic_similarity'`. -/
def map_test_cases_to_requirements (chunks : List Str)
    (test_cases : List TestCase) (requirements : List Requirement) :
    List MappingResult :=
  test_cases.map fun tc =>
    let mapped := find_matching_requirements chunks tc requirements
    { test_case_id := tc.id, test_case_title := tc.title,
      mapped_requirements := mapped,
      mapping_confidence := calculate_mapping_confidence tc mapped,
      mapping_method := "semantic_similarity".toList }

/-! ## `traceability_matrix.py`

`generate_matrix` and `calculate_coverage_stats` (the Excel export is pure
rendering and out of scope).  The `matrix['mappings']` dict is an
insertion-ordered association list with unique keys; requirement inputs are
the extractor's records, so every `.get(key, default)` on them takes the
present-key branch. -/

/-- One entry of `matrix['requirements']`. -/
structure MatrixReqEntry where
  id : Str
  rtype : Str
  priority : Str
  category : Str
  content : Str
  covered : Bool
  test_case_count : Nat
deriving DecidableEq, Repr

/-- One entry of `matrix['test_cases']`. -/
structure MatrixTcEntry where
  id : Str
  title : Str
  ttype : Str
  priority : Str
  status : Str
  requirement_mappings : List Str
deriving DecidableEq, Repr

/-- The generated matrix (the wall-clock `generation_date` is omitted). -/
structure TraceMatrix where
  requirements : List MatrixReqEntry
  test_cases : List MatrixTcEntry
  mappings : List (Str × List Str)
  total_requirements : Nat
  total_test_cases : Nat
deriving DecidableEq, Repr

/-- The composite text of `TraceabilityMatrix._find_mapped_requirements`:
`" ".join([title, description, steps, query]).lower()` (no strip). -/
def tmComposite (tc : TestCase) : Str :=
  lowerStr (tc.title ++ ' ' :: tc.description ++ ' ' :: tc.steps ++ ' ' :: tc.query)

/-- One requirement of the coarse keyword-overlap rule: mapped when its
content word set shares at least 3 words with the composite word set, and
its id is not already collected. -/
def tmStep (testWords : Finset Str) (acc : List Str) (r : Requirement) :
    List Str :=
  if 3 ≤ ((pySplitWs (lowerStr r.content)).toFinset ∩ testWords).card then
    if r.id ∈ acc then acc else acc ++ [r.id]
  else acc

/-- `TraceabilityMatrix._find_mapped_requirements`: the explicit (truthy)
`requirement_id` first, then every requirement whose content word set
(whitespace split of the lowercased content) shares at least 3 words with
the composite word set, without duplicates, in requirement order. -/
def find_mapped_requirements (test_case : TestCase)
    (requirements : List Requirement) : List Str :=
  let explicitIds := match test_case.requirement_id with
    | some rid => if rid = [] then [] else [rid]
    | none => []
  requirements.foldl (tmStep ((pySplitWs (tmComposite test_case)).toFinset))
    explicitIds

/-- The `for req in matrix['requirements']: if req['id'] == req_id: …; break`
coverage update: mark the first entry with the given id. -/
def updateCoverFirst : List MatrixReqEntry → Str → List MatrixReqEntry
  | [], _ => []
  | e :: es, rid =>
    if e.id = rid then
      { e with covered := true, test_case_count := e.test_case_count + 1 } :: es
    else e :: updateCoverFirst es rid

/-- `matrix['mappings'].setdefault(req_id, []).append(tc_id)` semantics:
append to the existing key or add a new key at the end. -/
def addMapping (ms : List (Str × List Str)) (rid tcid : Str) :
    List (Str × List Str) :=
  if ms.any (fun p => p.1 = rid) then
    ms.map fun p => if p.1 = rid then (p.1, p.2 ++ [tcid]) else p
  else ms ++ [(rid, [tcid])]

/-- Reading `matrix['mappings'].get(req_id, [])`: the test cases recorded
under a requirement id (`[]` when the key is absent). -/
def lookupMapping (ms : List (Str × List Str)) (k : Str) : List Str :=
  ((ms.find? (fun p => decide (p.1 = k))).map (fun p => p.2)).getD []

/-- A requirement id that may legally appear as a `mappings` key: the id of
an input requirement, or the explicit `requirement_id` of an input test
case. -/
def allowedKey (requirements : List Requirement) (test_cases : List TestCase)
    (q : Str) : Prop :=
  q ∈ requirements.map (·.id) ∨
    ∃ tc ∈ test_cases, tc.requirement_id = some q

/-- Invariant of `generate_matrix`'s entry/mappings state: entry ids are the
input requirement ids, every mappings key is allowed, every mappings value
is non-empty, and — when the input ids are pairwise distinct — an entry is
covered exactly when its id is a mappings key. -/
def EMInv (reqIds : List Str) (allowed : Str → Prop)
    (p : List MatrixReqEntry × List (Str × List Str)) : Prop :=
  p.1.map (·.id) = reqIds ∧
  (∀ q ∈ p.2.map (·.1), allowed q) ∧
  (∀ kv ∈ p.2, kv.2 ≠ []) ∧
  (reqIds.Pairwise (· ≠ ·) →
    ∀ e ∈ p.1, (e.covered = true ↔ e.id ∈ p.2.map (·.1)))

/-- One collected id: mark the first matching requirement entry covered and
append the test-case id under that key. -/
def coverStep (tcid : Str)
    (p : List MatrixReqEntry × List (Str × List Str)) (rid : Str) :
    List MatrixReqEntry × List (Str × List Str) :=
  (updateCoverFirst p.1 rid, addMapping p.2 rid tcid)

/-- The per-test-case body of `generate_matrix`'s main loop. -/
def genStep (requirements : List Requirement)
    (st : List MatrixReqEntry × List (Str × List Str) × List MatrixTcEntry)
    (tc : TestCase) :
    List MatrixReqEntry × List (Str × List Str) × List MatrixTcEntry :=
  let ids := find_mapped_requirements tc requirements
  let upd := ids.foldl (coverStep tc.id) (st.1, st.2.1)
  (upd.1, upd.2,
   st.2.2 ++ [{ id := tc.id, title := tc.title, ttype := tc.ttype,
                priority := tc.priority, status := tc.status,
                requirement_mappings := ids }])

/-- `TraceabilityMatrix.generate_matrix`. -/
def generate_matrix (requirements : List Requirement)
    (test_cases : List TestCase) : TraceMatrix :=
  let entries0 := requirements.map fun r =>
    ({ id := r.id, rtype := r.rtype, priority := r.priority,
       category := r.category, content := excerpt200 r.content,
       covered := false, test_case_count := 0 } : MatrixReqEntry)
  let fin := test_cases.foldl (genStep requirements) (entries0, [], [])
  { requirements := fin.1, test_cases := fin.2.2, mappings := fin.2.1,
    total_requirements := requirements.length,
    total_test_cases := test_cases.length }

/-- Python `round(x, 2)` over exact rationals. -/
def pyRound2 (q : ℚ) : ℚ := (round (q * 100) : ℚ) / 100

/-- The `overall_coverage` dict of `calculate_coverage_stats`. -/
structure OverallCoverage where
  total_requirements : Nat
  covered_requirements : Nat
  uncovered_requirements : Nat
  coverage_percentage : ℚ
deriving DecidableEq, Repr

/-- A `{total, covered, percentage}` breakdown entry. -/
structure GroupCoverage where
  total : Nat
  covered : Nat
  percentage : ℚ
deriving DecidableEq, Repr

/-- The result of `calculate_coverage_stats`. -/
structure CoverageStats where
  overall : OverallCoverage
  coverage_by_type : List (Str × GroupCoverage)
  coverage_by_priority : List (Str × GroupCoverage)
  test_case_distribution : List (Str × Nat)
  uncovered_requirements : List (Str × Str)
deriving DecidableEq, Repr

/-- Insertion-ordered `{'total': …, 'covered': …}` accumulation. -/
def bumpGroup (gs : List (Str × Nat × Nat)) (key : Str) (cov : Bool) :
    List (Str × Nat × Nat) :=
  if gs.any (fun p => p.1 = key) then
    gs.map fun p =>
      if p.1 = key then (p.1, p.2.1 + 1, p.2.2 + (if cov then 1 else 0)) else p
  else gs ++ [(key, 1, if cov then 1 else 0)]

/-- A grouped coverage breakdown with percentages. -/
def groupStats (items : List (Str × Bool)) : List (Str × GroupCoverage) :=
  (items.foldl (fun gs it => bumpGroup gs it.1 it.2) []).map fun p =>
    (p.1,
     { total := p.2.1, covered := p.2.2,
       percentage :=
         pyRound2 (if 0 < p.2.1 then (p.2.2 : ℚ) / (p.2.1 : ℚ) * 100 else 0) })

/-- `tc_by_type[tc_type] = tc_by_type.get(tc_type, 0) + 1`. -/
def bumpCount (gs : List (Str × Nat)) (key : Str) : List (Str × Nat) :=
  if gs.any (fun p => p.1 = key) then
    gs.map fun p => if p.1 = key then (p.1, p.2 + 1) else p
  else gs ++ [(key, 1)]

/-- `TraceabilityMatrix.calculate_coverage_stats` (on a generated matrix,
which is always truthy, so the `if not matrix_data` guard is dead). -/
def calculate_coverage_stats (m : TraceMatrix) : CoverageStats :=
  let total := m.requirements.length
  let covered := (m.requirements.filter (fun e => e.covered)).length
  { overall :=
      { total_requirements := total, covered_requirements := covered,
        uncovered_requirements := total - covered,
        coverage_percentage :=
          pyRound2 (if 0 < total then (covered : ℚ) / (total : ℚ) * 100 else 0) },
    coverage_by_type := groupStats (m.requirements.map fun e => (e.rtype, e.covered)),
    coverage_by_priority :=
      groupStats (m.requirements.map fun e => (e.priority, e.covered)),
    test_case_distribution :=
      m.test_cases.foldl (fun gs tc => bumpCount gs tc.ttype) [],
    uncovered_requirements :=
      (((m.requirements.filter (fun e => !e.covered)).map
        (fun e => (e.id, e.content.take 100 ++ "...".toList))).take 10) }

/-! ## Specification predicates and concrete instances -/

/-- The tie-breaking order actually realized by the index sorts: strictly
descending similarity, with ties in strictly increasing original chunk
position. -/
def StrictRank (a b : SimScore) : Prop :=
  b.similarity < a.similarity ∨ (a.similarity = b.similarity ∧ a.index < b.index)

/-- The (amended) behavioural contract of `search` on a built index:
success, at most `k` results, non-increasing similarity, ties broken by
original chunk order, and — when every chunk scores 0 — the first `k`
chunks *having a non-empty token union with the query* in original order,
falling back to the first `k` chunks only when no chunk has one. -/
def SearchSpec (chunks : List Str) (q : Str) (k : Nat) : Prop :=
  ∃ res, search chunks q k = Except.ok res ∧
    res.length ≤ k ∧
    res.Pairwise (fun a b => jaccardWords q b ≤ jaccardWords q a) ∧
    (searchSorted chunks q).Pairwise StrictRank ∧
    (res = ((searchSorted chunks q).take k).map SimScore.chunk ∨
      (searchScored chunks q = [] ∧ res = chunks.take k)) ∧
    ((∀ c ∈ chunks, jaccardWords q c = 0) →
      res = if ∀ c ∈ chunks, wordSet q ∪ wordSet c = ∅
            then chunks.take k
            else (chunks.filter fun c => decide (wordSet q ∪ wordSet c ≠ ∅)).take k)

/-- A chunk with requirement number 1. -/
def exC0 : Str :=
  "Requirement 1 states that the system records every action taken by the user.".toList

/-- A different chunk carrying the same requirement number 1. -/
def exC1 : Str :=
  "Requirement 1 is duplicated here with a fresh description of the backup policy.".toList

/-- An index where the first chunk has no word tokens at all. -/
def fallbackChunks : List Str := ["* * *".toList, "backup policy".toList]

/-- A minimal well-formed test case with empty text fields. -/
def tcEmpty : TestCase :=
  { id := "TC1".toList, title := [], description := [], steps := [], query := [],
    requirement_id := none, ttype := "Functional".toList,
    priority := "Medium".toList, status := "Generated".toList }

/-- The mapping result produced for `tcEmpty` against an empty corpus. -/
def mrEmpty : MappingResult :=
  { test_case_id := "TC1".toList, test_case_title := [],
    mapped_requirements := [], mapping_confidence := 0,
    mapping_method := "semantic_similarity".toList }

/-- A test case whose composite text is the non-empty `"backup policy"`. -/
def tcBackup : TestCase :=
  { id := "TC2".toList, title := "backup policy".toList, description := [],
    steps := [], query := [], requirement_id := none,
    ttype := "Functional".toList, priority := "Medium".toList,
    status := "Generated".toList }

/-- A requirement whose content matches `tcBackup` exactly. -/
def reqBackup : Requirement :=
  { id := "FUNCTIONAL_7".toList, rtype := "functional".toList,
    content := "backup policy".toList, chunk_index := 0,
    priority := "medium".toList, category := "general".toList,
    validation_status := "pending".toList }

/-- The mapping result for `tcBackup` when the index holds no chunks. -/
def mrBackup : MappingResult :=
  { test_case_id := "TC2".toList, test_case_title := "backup policy".toList,
    mapped_requirements := [], mapping_confidence := 0,
    mapping_method := "semantic_similarity".toList }

/-- A one-chunk index. -/
def chunksAB : List Str := ["alpha beta".toList]

/-- A requirement whose content equals the single chunk. -/
def reqAB : Requirement :=
  { id := "FUNCTIONAL_1".toList, rtype := "functional".toList,
    content := "alpha beta".toList, chunk_index := 0,
    priority := "medium".toList, category := "general".toList,
    validation_status := "pending".toList }

/-- A test case whose title equals the single chunk. -/
def tcAB : TestCase :=
  { id := "TC1".toList, title := "alpha beta".toList, description := [],
    steps := [], query := [], requirement_id := none,
    ttype := "Functional".toList, priority := "Medium".toList,
    status := "Generated".toList }

/-- The mapping result for `tcAB` over `chunksAB` and `[reqAB]`. -/
def mrAB : MappingResult :=
  { test_case_id := "TC1".toList, test_case_title := "alpha beta".toList,
    mapped_requirements :=
      [{ requirement_id := "FUNCTIONAL_1".toList, similarity_score := 1,
         content := "alpha beta".toList }],
    mapping_confidence := 1,
    mapping_method := "semantic_similarity".toList }

/-- A requirement used by the traceability-matrix instances. -/
def reqGamma : Requirement :=
  { id := "FUNCTIONAL_1".toList, rtype := "functional".toList,
    content := "alpha beta gamma delta".toList, chunk_index := 0,
    priority := "medium".toList, category := "general".toList,
    validation_status := "pending".toList }

/-- A second requirement sharing `reqGamma`'s id with different content. -/
def reqGammaDup : Requirement :=
  { id := "FUNCTIONAL_1".toList, rtype := "functional".toList,
    content := "alpha beta gamma epsilon".toList, chunk_index := 1,
    priority := "medium".toList, category := "general".toList,
    validation_status := "pending".toList }

/-- A test case whose explicit `requirement_id` names no requirement. -/
def tcGhost : TestCase :=
  { id := "TC1".toList, title := "unrelated".toList, description := [],
    steps := [], query := [], requirement_id := some "GHOST".toList,
    ttype := "Functional".toList, priority := "Medium".toList,
    status := "Generated".toList }

/-- A test case sharing three content words with `reqGamma`. -/
def tcOverlap : TestCase :=
  { id := "TC2".toList, title := "alpha beta gamma test".toList,
    description := [], steps := [], query := [], requirement_id := none,
    ttype := "Functional".toList, priority := "Medium".toList,
    status := "Generated".toList }

/-- A test case explicitly naming `reqGamma`'s id. -/
def tcExplicit : TestCase :=
  { id := "TC3".toList, title := "unrelated".toList, description := [],
    steps := [], query := [], requirement_id := some "FUNCTIONAL_1".toList,
    ttype := "Functional".toList, priority := "Medium".toList,
    status := "Generated".toList }

/-- The matrix entry for `reqGamma` after `tcExplicit` covers it. -/
def entryGammaCovered : MatrixReqEntry :=
  { id := "FUNCTIONAL_1".toList, rtype := "functional".toList,
    priority := "medium".toList, category := "general".toList,
    content := "alpha beta gamma delta".toList, covered := true,
    test_case_count := 1 }

/-! ## Theorems -/

/-- C7: `build` with an empty chunk sequence fails with a descriptive
(non-empty) error message, `search` invoked on the never-built (empty)
index fails with a descriptive error message, and
`get_similarity_scores` (`scoreAll`) on an index with no chunks returns
the empty list rather than failing. -/
theorem index_error_contract :
    build_index [] = Except.error ("No text chunks provided".toList) ∧
    "No text chunks provided".toList ≠ ([] : Str) ∧
    (∀ q k, search [] q k =
      Except.error ("Index not built yet. Please upload a document first.".toList)) ∧
    "Index not built yet. Please upload a document first.".toList ≠ ([] : Str) ∧
    (∀ q k, get_similarity_scores [] q k = []) :=
  ⟨rfl, by decide, fun _ _ => rfl, by decide, fun _ _ => rfl⟩

/-- C8: the Jaccard similarity primitive over token sets satisfies
`similarity(a, a) = 1` for non-empty `a`, and is symmetric. -/
theorem jaccard_self_and_comm :
    (∀ a : Finset Str, a ≠ ∅ → jaccard a a = 1) ∧
    (∀ a b : Finset Str, jaccard a b = jaccard b a) := by
  constructor
  · intro a ha
    rw [jaccard, Finset.union_self, Finset.inter_self, if_neg ha]
    refine div_self ?_
    exact_mod_cast Finset.card_ne_zero.mpr (Finset.nonempty_iff_ne_empty.mpr ha)
  · intro a b
    rw [jaccard, jaccard, Finset.union_comm, Finset.inter_comm]

/-- Witness for C8: the singleton token set. -/
theorem jaccard_self_and_comm_witness :
    ({"a".toList} : Finset Str) ≠ ∅ ∧
      jaccard {"a".toList} {"a".toList} = 1 :=
  ⟨by decide, jaccard_self_and_comm.1 _ (by decide)⟩

/-- C1 (counterexample): the mapper tags every result with the constant
`'semantic_similarity'`, which is neither `'retrieval'` nor
`'keyword_fallback'`, so the claimed enum is violated on any produced
MappingResult. -/
theorem mapping_method_enum_counterexample :
    (map_test_cases_to_requirements [] [tcEmpty] []).map (·.mapping_method) =
      ["semantic_similarity".toList] ∧
    "semantic_similarity".toList ≠ "retrieval".toList ∧
    "semantic_similarity".toList ≠ "keyword_fallback".toList := by
  refine ⟨by decide, by decide, by decide⟩

/-- C1 (amended): every MappingResult produced by the mapper carries the
constant method tag `'semantic_similarity'`, whichever path produced the
matches. -/
theorem mapping_method_constant :
    ∀ chunks test_cases requirements r,
      r ∈ map_test_cases_to_requirements chunks test_cases requirements →
      r.mapping_method = "semantic_similarity".toList := by
  intro chunks tcs reqs r hr
  simp only [map_test_cases_to_requirements, List.mem_map] at hr
  obtain ⟨tc, -, rfl⟩ := hr
  rfl

/-- Witness for C1 (amended) at a concrete input. -/
theorem mapping_method_constant_witness :
    mrEmpty ∈ map_test_cases_to_requirements [] [tcEmpty] [] ∧
    mrEmpty.mapping_method = "semantic_similarity".toList :=
  ⟨by decide, mapping_method_constant [] [tcEmpty] [] mrEmpty (by decide)⟩

/-- C10: when the lexical index holds no chunks, every mapping result has
an empty match list and confidence 0 — `get_similarity_scores` returns `[]`
instead of raising, so no requirement-content comparison happens even if
matching requirements exist. -/
theorem empty_index_mapper_empty :
    ∀ test_cases requirements r,
      r ∈ map_test_cases_to_requirements [] test_cases requirements →
      r.mapped_requirements = [] ∧ r.mapping_confidence = 0 := by
  intro tcs reqs r hr
  simp only [map_test_cases_to_requirements, List.mem_map] at hr
  obtain ⟨tc, -, rfl⟩ := hr
  have hfind : find_matching_requirements [] tc reqs = [] := by
    unfold find_matching_requirements
    split
    · rfl
    · dsimp only
      split
      · rfl
      · rfl
  refine ⟨hfind, ?_⟩
  show calculate_mapping_confidence tc (find_matching_requirements [] tc reqs) = 0
  rw [hfind]
  rfl

/-- Witness for C10: a test case with non-empty composite text and a
requirement with identical content still map to nothing on an empty
index. -/
theorem empty_index_mapper_empty_witness :
    mrBackup ∈ map_test_cases_to_requirements [] [tcBackup] [reqBackup] ∧
    compositeText tcBackup ≠ [] ∧
    mrBackup.mapped_requirements = [] ∧ mrBackup.mapping_confidence = 0 := by
  refine ⟨by decide, by decide, ?_, ?_⟩
  · exact (empty_index_mapper_empty [tcBackup] [reqBackup] mrBackup (by decide)).1
  · exact (empty_index_mapper_empty [tcBackup] [reqBackup] mrBackup (by decide)).2

/-! ### Matrix helper lemmas -/

theorem updateCoverFirst_map_id (es : List MatrixReqEntry) (rid : Str) :
    (updateCoverFirst es rid).map (·.id) = es.map (·.id) := by
  induction es with
  | nil => rfl
  | cons e es ih =>
    rw [updateCoverFirst]
    split
    · simp
    · simpa using ih

theorem coverFold_map_id (tcid : Str) :
    ∀ (ids : List Str) (p : List MatrixReqEntry × List (Str × List Str)),
      ((ids.foldl (coverStep tcid) p).1).map (·.id) = p.1.map (·.id) := by
  intro ids
  induction ids with
  | nil => intro p; rfl
  | cons rid ids ih =>
    intro p
    rw [List.foldl_cons, ih]
    exact updateCoverFirst_map_id _ _

theorem genStep_map_id (reqs : List Requirement)
    (st : List MatrixReqEntry × List (Str × List Str) × List MatrixTcEntry)
    (tc : TestCase) :
    ((genStep reqs st tc).1).map (·.id) = st.1.map (·.id) := by
  unfold genStep
  exact coverFold_map_id _ _ _

theorem genFold_map_id (reqs : List Requirement) :
    ∀ (tcs : List TestCase)
      (st : List MatrixReqEntry × List (Str × List Str) × List MatrixTcEntry),
      ((tcs.foldl (genStep reqs) st).1).map (·.id) = st.1.map (·.id) := by
  intro tcs
  induction tcs with
  | nil => intro st; rfl
  | cons tc tcs ih =>
    intro st
    rw [List.foldl_cons, ih, genStep_map_id]

theorem generate_matrix_map_id (reqs : List Requirement) (tcs : List TestCase) :
    (generate_matrix reqs tcs).requirements.map (·.id) = reqs.map (·.id) := by
  unfold generate_matrix
  rw [genFold_map_id]
  simp

theorem generate_matrix_req_length (reqs : List Requirement)
    (tcs : List TestCase) :
    (generate_matrix reqs tcs).requirements.length = reqs.length := by
  have h := congrArg List.length (generate_matrix_map_id reqs tcs)
  simpa using h

theorem generate_matrix_nil_requirements (tcs : List TestCase) :
    (generate_matrix [] tcs).requirements = [] := by
  have h := generate_matrix_req_length [] tcs
  exact List.length_eq_zero.mp (by simpa using h)

theorem pyRound2_zero : pyRound2 0 = 0 := by
  simp [pyRound2]

/-- C4: the overall coverage percentage equals
`round(covered / total * 100, 2)`, is `0` (not an error) when the matrix has
no requirements, and the uncovered list is empty in that case. -/
theorem coverage_percentage_formula :
    ∀ requirements test_cases,
      ((calculate_coverage_stats
          (generate_matrix requirements test_cases)).overall.coverage_percentage =
        if requirements.length = 0 then 0
        else
          pyRound2
            (((((generate_matrix requirements test_cases).requirements.filter
                  (fun e => e.covered)).length : ℚ) / (requirements.length : ℚ)) *
              100)) ∧
      (calculate_coverage_stats
          (generate_matrix requirements test_cases)).overall.total_requirements =
        requirements.length ∧
      (calculate_coverage_stats
          (generate_matrix [] test_cases)).overall.coverage_percentage = 0 ∧
      (calculate_coverage_stats
          (generate_matrix [] test_cases)).uncovered_requirements = [] := by
  intro reqs tcs
  have hlen := generate_matrix_req_length reqs tcs
  have hnil := generate_matrix_nil_requirements tcs
  refine ⟨?_, ?_, ?_, ?_⟩
  · show pyRound2 _ = _
    rw [hlen]
    by_cases h : reqs.length = 0
    · rw [if_pos h, if_neg (by omega), pyRound2_zero]
    · rw [if_neg h, if_pos (by omega)]
  · exact hlen
  · show pyRound2 _ = _
    rw [hnil]
    simpa using pyRound2_zero
  · show (((_ : List MatrixReqEntry).filter _).map _).take 10 = _
    rw [hnil]
    rfl

/-! ### Similarity and confidence bounds -/

theorem jaccard_nonneg (a b : Finset Str) : 0 ≤ jaccard a b := by
  unfold jaccard
  split
  · exact le_refl 0
  · exact div_nonneg (Nat.cast_nonneg _) (Nat.cast_nonneg _)

theorem jaccard_le_one (a b : Finset Str) : jaccard a b ≤ 1 := by
  unfold jaccard
  split
  · exact zero_le_one
  · rename_i h
    have hpos : 0 < ((a ∪ b).card : ℚ) := by
      have := Finset.card_pos.mpr (Finset.nonempty_iff_ne_empty.mpr h)
      exact_mod_cast this
    rw [div_le_one hpos]
    exact_mod_cast Finset.card_le_card Finset.inter_subset_union

theorem mem_get_similarity_scores_bounds (chunks : List Str) (q : Str) (k : Nat) :
    ∀ s ∈ get_similarity_scores chunks q k,
      0 ≤ s.similarity ∧ s.similarity ≤ 1 := by
  intro s hs
  unfold get_similarity_scores at hs
  split at hs
  · simp at hs
  · have h1 : s ∈ List.insertionSort simScoreLe
        (chunks.enum.map fun ic =>
          (⟨ic.2, jaccardWords q ic.2, ic.1⟩ : SimScore)) :=
      List.mem_of_mem_take hs
    have h2 := (List.perm_insertionSort simScoreLe _).mem_iff.mp h1
    simp only [List.mem_map] at h2
    obtain ⟨ic, -, rfl⟩ := h2
    exact ⟨jaccard_nonneg _ _, jaccard_le_one _ _⟩

theorem candStep_forall {P : ReqMatch → Prop} (reqs : List Requirement)
    (acc : List ReqMatch) (sr : SimScore)
    (hacc : ∀ x ∈ acc, P x)
    (hsr : ∀ r : Requirement, P ⟨r.id, sr.similarity, excerpt200 r.content⟩) :
    ∀ x ∈ candStep reqs acc sr, P x := by
  intro x hx
  unfold candStep at hx
  split at hx
  · rcases hfind : reqs.find? (fun r =>
        strContainsB sr.chunk r.content || strContainsB r.content sr.chunk) with
      - | r
    · rw [hfind] at hx
      exact hacc x hx
    · rw [hfind] at hx
      rcases List.mem_append.mp hx with h | h
      · exact hacc x h
      · rcases List.mem_singleton.mp h with rfl
        exact hsr r
  · exact hacc x hx

theorem candFold_forall {P : ReqMatch → Prop} (reqs : List Requirement) :
    ∀ (sims : List SimScore) (acc : List ReqMatch),
      (∀ x ∈ acc, P x) →
      (∀ sr ∈ sims, ∀ r : Requirement,
        P ⟨r.id, sr.similarity, excerpt200 r.content⟩) →
      ∀ x ∈ sims.foldl (candStep reqs) acc, P x := by
  intro sims
  induction sims with
  | nil => intro acc hacc _ x hx; exact hacc x hx
  | cons sr sims ih =>
    intro acc hacc hsims x hx
    rw [List.foldl_cons] at hx
    refine ih _ ?_ (fun s hs => hsims s (List.mem_cons_of_mem _ hs)) x hx
    exact candStep_forall reqs acc sr hacc (hsims sr (List.mem_cons_self _ _))

theorem dedupStep_forall {P : ReqMatch → Prop} (acc : List ReqMatch)
    (m : ReqMatch) (hacc : ∀ x ∈ acc, P x) (hm : P m) :
    ∀ x ∈ dedupStep acc m, P x := by
  intro x hx
  unfold dedupStep at hx
  split at hx
  · simp only [List.mem_map] at hx
    obtain ⟨m0, hm0, rfl⟩ := hx
    split
    · exact hm
    · exact hacc m0 hm0
  · rcases List.mem_append.mp hx with h | h
    · exact hacc x h
    · rcases List.mem_singleton.mp h with rfl
      exact hm

theorem dedupMaxById_forall {P : ReqMatch → Prop} :
    ∀ (ms acc : List ReqMatch), (∀ x ∈ acc, P x) → (∀ x ∈ ms, P x) →
      ∀ x ∈ ms.foldl dedupStep acc, P x := by
  intro ms
  induction ms with
  | nil => intro acc hacc _ x hx; exact hacc x hx
  | cons m ms ih =>
    intro acc hacc hms x hx
    rw [List.foldl_cons] at hx
    refine ih _ ?_ (fun y hy => hms y (List.mem_cons_of_mem _ hy)) x hx
    exact dedupStep_forall acc m hacc (hms m (List.mem_cons_self _ _))

theorem find_matching_requirements_forall (chunks : List Str) (tc : TestCase)
    (reqs : List Requirement) :
    ∀ m ∈ find_matching_requirements chunks tc reqs,
      0 ≤ m.similarity_score ∧ m.similarity_score ≤ 1 := by
  intro m hm
  unfold find_matching_requirements at hm
  split at hm
  · simp at hm
  · dsimp only at hm
    split at hm
    · simp at hm
    · have h1 := List.mem_of_mem_take hm
      simp only [List.mem_map] at h1
      obtain ⟨pm, hpm, rfl⟩ := h1
      have h2 := (List.perm_insertionSort matchPosLe _).mem_iff.mp hpm
      have h3 : pm.2 ∈ dedupMaxById
          ((get_similarity_scores chunks (compositeText tc) reqs.length).foldl
            (candStep reqs) []) := by
        have := List.mem_map_of_mem Prod.snd h2
        rwa [List.enum_map_snd] at this
      have hcand : ∀ x ∈ (get_similarity_scores chunks (compositeText tc)
            reqs.length).foldl (candStep reqs) [],
          0 ≤ x.similarity_score ∧ x.similarity_score ≤ 1 := by
        refine candFold_forall reqs _ [] ?_ ?_
        · intro x hx
          exact absurd hx (List.not_mem_nil x)
        · intro sr hsr r
          exact mem_get_similarity_scores_bounds _ _ _ sr hsr
      have h5 : ∀ x ∈ dedupMaxById
          ((get_similarity_scores chunks (compositeText tc) reqs.length).foldl
            (candStep reqs) []),
          0 ≤ x.similarity_score ∧ x.similarity_score ≤ 1 := by
        refine dedupMaxById_forall _ [] ?_ hcand
        intro x hx
        exact absurd hx (List.not_mem_nil x)
      exact h5 _ h3

theorem find_matching_requirements_length (chunks : List Str) (tc : TestCase)
    (reqs : List Requirement) :
    (find_matching_requirements chunks tc reqs).length ≤ 3 := by
  unfold find_matching_requirements
  split
  · simp
  · dsimp only
    split
    · simp
    · simp

theorem foldl_max_bounds :
    ∀ (l : List ReqMatch) (a : ℚ), 0 ≤ a → a ≤ 1 →
      (∀ x ∈ l, 0 ≤ x.similarity_score ∧ x.similarity_score ≤ 1) →
      0 ≤ l.foldl (fun a b => max a b.similarity_score) a ∧
        l.foldl (fun a b => max a b.similarity_score) a ≤ 1 := by
  intro l
  induction l with
  | nil => intro a h0 h1 _; exact ⟨h0, h1⟩
  | cons x l ih =>
    intro a h0 h1 hl
    rw [List.foldl_cons]
    refine ih _ (le_max_of_le_left h0)
      (max_le h1 (hl x (List.mem_cons_self _ _)).2) ?_
    intro y hy
    exact hl y (List.mem_cons_of_mem _ hy)

theorem pyRound3_bounds {q : ℚ} (h0 : 0 ≤ q) (h1 : q ≤ 1) :
    0 ≤ pyRound3 q ∧ pyRound3 q ≤ 1 := by
  unfold pyRound3
  constructor
  · refine div_nonneg ?_ (by norm_num)
    have h : (0 : ℤ) ≤ round (q * 1000) := by
      rw [round_eq]
      exact Int.floor_nonneg.mpr (by linarith)
    exact_mod_cast h
  · rw [div_le_one (by norm_num)]
    have h : round (q * 1000) ≤ 1000 := by
      rw [round_eq]
      have h2 : (q * 1000 + 1 / 2 : ℚ) ≤ 1000 + 1 / 2 := by linarith
      have h3 : ((⌊q * 1000 + 1 / 2⌋ : ℤ) : ℚ) ≤ 1000 + 1 / 2 :=
        le_trans (Int.floor_le _) h2
      have h4 : ((⌊q * 1000 + 1 / 2⌋ : ℤ) : ℚ) < ((1001 : ℤ) : ℚ) := by
        push_cast
        linarith
      have h5 : (⌊q * 1000 + 1 / 2⌋ : ℤ) < 1001 := by exact_mod_cast h4
      omega
    exact_mod_cast h

theorem calculate_mapping_confidence_bounds (tc : TestCase)
    (mapped : List ReqMatch)
    (hb : ∀ x ∈ mapped, 0 ≤ x.similarity_score ∧ x.similarity_score ≤ 1) :
    0 ≤ calculate_mapping_confidence tc mapped ∧
      calculate_mapping_confidence tc mapped ≤ 1 := by
  unfold calculate_mapping_confidence
  match mapped, hb with
  | [], _ => exact ⟨le_refl 0, zero_le_one⟩
  | m :: ms, hb =>
    dsimp only
    have hmax := foldl_max_bounds ms m.similarity_score
      (hb m (List.mem_cons_self _ _)).1 (hb m (List.mem_cons_self _ _)).2
      (fun x hx => hb x (List.mem_cons_of_mem _ hx))
    have h0 := hmax.1
    have h1 := hmax.2
    have hm0 : (0 : ℚ) ≤
        min 1 (List.foldl (fun a b => max a b.similarity_score)
          m.similarity_score ms + 2 / 10) :=
      le_min zero_le_one (by linarith)
    have hm1 :
        min 1 (List.foldl (fun a b => max a b.similarity_score)
          m.similarity_score ms + 2 / 10) ≤ 1 :=
      min_le_left _ _
    rcases tc.requirement_id with - | rid
    · dsimp only
      refine pyRound3_bounds ?_ ?_ <;> split <;> nlinarith
    · dsimp only
      refine pyRound3_bounds ?_ ?_ <;> split <;> split <;> nlinarith

/-- C5: every mapping result has at most 3 matches and a confidence in
`[0, 1]` (the confidence being the rounded, boosted and penalized maximal
surviving similarity computed by `calculate_mapping_confidence`). -/
theorem mapper_match_count_and_confidence_bounds :
    ∀ chunks test_cases requirements r,
      r ∈ map_test_cases_to_requirements chunks test_cases requirements →
      r.mapped_requirements.length ≤ 3 ∧
        0 ≤ r.mapping_confidence ∧ r.mapping_confidence ≤ 1 := by
  intro chunks tcs reqs r hr
  simp only [map_test_cases_to_requirements, List.mem_map] at hr
  obtain ⟨tc, -, rfl⟩ := hr
  refine ⟨find_matching_requirements_length chunks tc reqs, ?_⟩
  exact calculate_mapping_confidence_bounds tc _
    (find_matching_requirements_forall chunks tc reqs)

/-- Witness for C5 at a concrete mapped test case. -/
theorem mapper_match_count_and_confidence_bounds_witness :
    mrAB ∈ map_test_cases_to_requirements chunksAB [tcAB] [reqAB] ∧
    mrAB.mapped_requirements.length ≤ 3 ∧
      0 ≤ mrAB.mapping_confidence ∧ mrAB.mapping_confidence ≤ 1 :=
  ⟨by with_unfolding_all decide,
   mapper_match_count_and_confidence_bounds chunksAB [tcAB] [reqAB] mrAB
     (by with_unfolding_all decide)⟩

/-! ### `search` ordering and fallback -/

theorem pairwise_fst_lt_enumFrom {α : Type} :
    ∀ (l : List α) (n : Nat),
      (l.enumFrom n).Pairwise (fun a b => a.1 < b.1) := by
  intro l
  induction l with
  | nil => intro n; exact List.Pairwise.nil
  | cons x l ih =>
    intro n
    rw [List.enumFrom_cons]
    refine List.Pairwise.cons ?_ (ih (n + 1))
    intro y hy
    have := List.le_fst_of_mem_enumFrom hy
    omega

theorem searchScored_pairwise_idx (chunks : List Str) (q : Str) :
    (searchScored chunks q).Pairwise (fun a b => a.index < b.index) := by
  unfold searchScored
  rw [List.pairwise_filterMap]
  refine (pairwise_fst_lt_enumFrom chunks 0).imp_of_mem ?_
  intro a b _ _ hab x hx y hy
  unfold scoreChunk at hx hy
  split at hx
  · split at hy
    · simp only [Option.mem_def, Option.some_inj] at hx hy
      rw [← hx, ← hy]
      exact hab
    · simp at hy
  · simp at hx

theorem mem_searchScored (chunks : List Str) (q : Str) :
    ∀ x ∈ searchScored chunks q,
      x.similarity = jaccardWords q x.chunk ∧ x.chunk ∈ chunks := by
  intro x hx
  unfold searchScored at hx
  rcases List.mem_filterMap.mp hx with ⟨ic, hic, hsc⟩
  unfold scoreChunk at hsc
  split at hsc
  · rename_i hne
    simp only [Option.some_inj] at hsc
    subst hsc
    constructor
    · rw [jaccardWords, jaccard, if_neg hne]
    · have h2 := List.mem_map_of_mem Prod.snd hic
      rwa [List.enum_map_snd] at h2
  · simp at hsc

theorem searchSorted_perm (chunks : List Str) (q : Str) :
    (searchSorted chunks q).Perm (searchScored chunks q) :=
  List.perm_insertionSort simScoreLe _

theorem searchSorted_pairwise_strict (chunks : List Str) (q : Str) :
    (searchSorted chunks q).Pairwise StrictRank := by
  have h1 : (searchSorted chunks q).Pairwise simScoreLe :=
    List.sorted_insertionSort simScoreLe _
  have h2 : (searchSorted chunks q).Pairwise (fun a b => a.index ≠ b.index) := by
    have hne : (searchScored chunks q).Pairwise
        (fun a b => a.index ≠ b.index) :=
      (searchScored_pairwise_idx chunks q).imp Nat.ne_of_lt
    exact ((searchSorted_perm chunks q).pairwise_iff
      (fun h => h.symm)).mpr hne
  refine (h1.and h2).imp ?_
  intro a b hab
  rcases hab with ⟨hle | ⟨heq, hle⟩, hne⟩
  · exact Or.inl hle
  · exact Or.inr ⟨heq, lt_of_le_of_ne hle hne⟩

theorem searchScored_eq_nil (chunks : List Str) (q : Str)
    (h : ∀ c ∈ chunks, wordSet q ∪ wordSet c = ∅) :
    searchScored chunks q = [] := by
  unfold searchScored
  rw [List.filterMap_eq_nil_iff]
  intro ic hic
  have hm : ic.2 ∈ chunks := by
    have := List.mem_map_of_mem Prod.snd hic
    rwa [List.enum_map_snd] at this
  unfold scoreChunk
  rw [if_neg]
  intro hne
  exact hne (h ic.2 hm)

theorem searchScored_map_chunk (q : Str) :
    ∀ (l : List Str) (n : Nat),
      ((l.enumFrom n).filterMap (scoreChunk q)).map (·.chunk) =
        l.filter (fun c => decide (wordSet q ∪ wordSet c ≠ ∅)) := by
  intro l
  induction l with
  | nil => intro n; rfl
  | cons c l ih =>
    intro n
    rw [List.enumFrom_cons]
    by_cases hc : wordSet q ∪ wordSet c = ∅
    · rw [List.filterMap_cons_none (by
        unfold scoreChunk
        exact if_neg (by simpa using hc)),
        List.filter_cons_of_neg (by simpa using hc)]
      exact ih (n + 1)
    · rw [List.filterMap_cons_some (show scoreChunk q (n, c) = some _ from by
        unfold scoreChunk
        exact if_pos hc),
        List.map_cons, List.filter_cons_of_pos (by simpa using hc)]
      rw [ih (n + 1)]

theorem searchSorted_of_all_zero (chunks : List Str) (q : Str)
    (hz : ∀ c ∈ chunks, jaccardWords q c = 0) :
    searchSorted chunks q = searchScored chunks q := by
  unfold searchSorted
  refine List.Sorted.insertionSort_eq ?_
  refine (searchScored_pairwise_idx chunks q).imp_of_mem ?_
  intro a b ha hb hab
  have hae := mem_searchScored chunks q a ha
  have hbe := mem_searchScored chunks q b hb
  refine Or.inr ⟨?_, Nat.le_of_lt hab⟩
  rw [hae.1, hbe.1, hz a.chunk hae.2, hz b.chunk hbe.2]

theorem searchScored_nil_union (chunks : List Str) (q : Str)
    (h : searchScored chunks q = []) :
    ∀ c ∈ chunks, wordSet q ∪ wordSet c = ∅ := by
  intro c hc
  rcases List.mem_iff_getElem.mp hc with ⟨i, hi, rfl⟩
  have hlen : i < chunks.enum.length := by simpa using hi
  have hget : chunks.enum[i] = (i, chunks[i]) := List.getElem_enum _ _ _
  have hmem : (i, chunks[i]) ∈ chunks.enum := hget ▸ List.getElem_mem hlen
  have hnone := (List.filterMap_eq_nil_iff.mp (by rw [searchScored] at h; exact h))
    _ hmem
  unfold scoreChunk at hnone
  split at hnone
  · exact absurd hnone (by simp)
  · rename_i hcond
    exact not_not.mp hcond

theorem union_empty_sim_zero {q c : Str} (h : wordSet q ∪ wordSet c = ∅) :
    jaccardWords q c = 0 := by
  rw [jaccardWords, jaccard, if_pos h]

theorem scored_nil_of_sorted_nil (chunks : List Str) (q : Str)
    (hs : searchSorted chunks q = []) : searchScored chunks q = [] := by
  have hp := (searchSorted_perm chunks q).symm
  rw [hs] at hp
  exact hp.eq_nil

theorem sorted_nil_all_zero (chunks : List Str) (q : Str)
    (hs : searchSorted chunks q = []) :
    ∀ c ∈ chunks, jaccardWords q c = 0 := by
  intro c hc
  exact union_empty_sim_zero
    (searchScored_nil_union chunks q (scored_nil_of_sorted_nil chunks q hs) c hc)

/-- C6 (amended): on a non-empty index, `search` succeeds with at most `k`
texts in non-increasing similarity order, ties broken by original chunk
position; when every chunk has similarity 0, it returns (in original order)
the first `k` chunks whose token union with the query is non-empty, and only
when no chunk has a non-empty union does it return the first `k` chunks in
original order. -/
theorem search_behaviour (chunks : List Str) (q : Str) (k : Nat)
    (h : chunks ≠ []) : SearchSpec chunks q k := by
  have hopen : search chunks q k =
      Except.ok
        (if ((searchSorted chunks q).take k).map SimScore.chunk = []
         then chunks.take k
         else ((searchSorted chunks q).take k).map SimScore.chunk) := by
    unfold search
    rw [if_neg h]
  have htakemem : ∀ x ∈ (searchSorted chunks q).take k,
      x.similarity = jaccardWords q x.chunk ∧ x.chunk ∈ chunks := by
    intro x hx
    exact mem_searchScored chunks q x
      ((searchSorted_perm chunks q).mem_iff.mp (List.mem_of_mem_take hx))
  refine ⟨_, hopen, ?_, ?_, searchSorted_pairwise_strict chunks q, ?_, ?_⟩
  · split
    · exact List.length_take_le k chunks
    · rw [List.length_map]
      exact List.length_take_le k (searchSorted chunks q)
  · split
    · rename_i hnil
      rcases List.take_eq_nil_iff.mp (List.map_eq_nil_iff.mp hnil) with hk | hs
      · subst hk
        simp
      · have hz := sorted_nil_all_zero chunks q hs
        refine List.pairwise_of_forall_mem_list ?_
        intro a ha b hb
        rw [hz a (List.mem_of_mem_take ha), hz b (List.mem_of_mem_take hb)]
    · have hstrict : ((searchSorted chunks q).take k).Pairwise StrictRank :=
        (searchSorted_pairwise_strict chunks q).sublist (List.take_sublist _ _)
      rw [List.pairwise_map]
      refine hstrict.imp_of_mem ?_
      intro a b ha hb hab
      rw [(htakemem a ha).1.symm, (htakemem b hb).1.symm]
      rcases hab with hlt | ⟨heq, -⟩
      · exact le_of_lt hlt
      · exact le_of_eq heq.symm
  · split
    · rename_i hnil
      rcases List.take_eq_nil_iff.mp (List.map_eq_nil_iff.mp hnil) with hk | hs
      · subst hk
        exact Or.inl (by simp)
      · exact Or.inr ⟨scored_nil_of_sorted_nil chunks q hs, rfl⟩
    · exact Or.inl rfl
  · intro hz
    by_cases hall : ∀ c ∈ chunks, wordSet q ∪ wordSet c = ∅
    · have hscored := searchScored_eq_nil chunks q hall
      have hsorted : searchSorted chunks q = [] := by
        rw [searchSorted, hscored]
        rfl
      rw [if_pos hall, hsorted]
      simp
    · have hsorted := searchSorted_of_all_zero chunks q hz
      have hmapchunk : ((searchSorted chunks q).take k).map SimScore.chunk =
          (chunks.filter (fun c => decide (wordSet q ∪ wordSet c ≠ ∅))).take k := by
        rw [hsorted, List.map_take]
        rw [searchScored, List.enum_eq_enumFrom, searchScored_map_chunk]
      rw [if_neg hall]
      split
      · rename_i hnil
        rw [hmapchunk] at hnil
        rcases List.take_eq_nil_iff.mp hnil with hk | hf
        · subst hk
          simp
        · exfalso
          rcases not_forall.mp hall with ⟨c, hc⟩
          rcases Classical.em (c ∈ chunks) with hcm | hcm
          · have hcne : wordSet q ∪ wordSet c ≠ ∅ := fun he => hc (fun _ => he)
            have : c ∈ chunks.filter
                (fun c => decide (wordSet q ∪ wordSet c ≠ ∅)) :=
              List.mem_filter.mpr ⟨hcm, by simpa using hcne⟩
            rw [hf] at this
            exact absurd this (List.not_mem_nil c)
          · exact hc (fun hm => absurd hm hcm)
      · exact hmapchunk

/-- C6 (counterexample): with chunks `["* * *", "backup policy"]` and the
empty query, every chunk has similarity 0, yet `search` returns only
`["backup policy"]` rather than the first 2 chunks in original order — the
token-free chunk is dropped before the empty-result fallback can fire. -/
theorem search_zero_fallback_counterexample :
    search fallbackChunks [] 2 = Except.ok ["backup policy".toList] ∧
    (∀ c ∈ fallbackChunks, jaccardWords [] c = 0) ∧
    ["backup policy".toList] ≠ fallbackChunks.take 2 := by
  refine ⟨by with_unfolding_all rfl, by with_unfolding_all decide, by decide⟩

/-- Witness for C6 (amended) at a concrete built index. -/
theorem search_behaviour_witness :
    fallbackChunks ≠ [] ∧ SearchSpec fallbackChunks [] 2 :=
  ⟨by decide, search_behaviour fallbackChunks [] 2 (by decide)⟩

/-! ### Extractor dedup invariant -/

/-- The dedup fingerprint of a stored requirement record (its content is
stored trimmed, so this is the fingerprint the extractor recorded for it). -/
def reqFp (r : Requirement) : Str := r.content.take 100

/-- Invariant of the extraction state: every emitted fingerprint is in the
`processed_content` set, and the emitted fingerprints are pairwise
distinct. -/
def FpInv (acc : ExtAcc) : Prop :=
  (∀ r ∈ acc.1, reqFp r ∈ acc.2) ∧ (acc.1.map reqFp).Pairwise (· ≠ ·)

theorem fpInv_append (gs ls : List Requirement) (fps : List Str)
    (r : Requirement) (hinv : FpInv (gs ++ ls, fps)) (hnotin : reqFp r ∉ fps) :
    FpInv (gs ++ (ls ++ [r]), reqFp r :: fps) := by
  obtain ⟨h1, h2⟩ := hinv
  rw [← List.append_assoc]
  constructor
  · intro x hx
    rcases List.mem_append.mp hx with hx | hx
    · exact List.mem_cons_of_mem _ (h1 x hx)
    · rcases List.mem_singleton.mp hx with rfl
      exact List.mem_cons_self _ _
  · rw [List.map_append, List.pairwise_append]
    refine ⟨h2, List.pairwise_singleton _ _, ?_⟩
    intro x hx y hy
    rcases List.mem_singleton.mp (by simpa using hy) with rfl
    simp only [List.mem_map] at hx
    obtain ⟨x0, hx0, rfl⟩ := hx
    intro heq
    exact hnotin (heq ▸ h1 x0 hx0)

theorem stepPattern_inv (chunk : Str) (ci : Nat) (ty : Str)
    (gs : List Requirement) (acc : ExtAcc) (m : Nat × Nat × Option Str)
    (hinv : FpInv (gs ++ acc.1, acc.2)) :
    FpInv (gs ++ (stepPattern chunk ci ty acc m).1,
      (stepPattern chunk ci ty acc m).2) := by
  unfold stepPattern
  dsimp only
  split
  · exact hinv
  · rename_i hfp
    exact fpInv_append gs acc.1 acc.2 _ hinv hfp

theorem stepFallback_inv (ci : Nat) (gs : List Requirement) (acc : ExtAcc)
    (ev : Nat × Str) (hinv : FpInv (gs ++ acc.1, acc.2)) :
    FpInv (gs ++ (stepFallback ci acc ev).1, (stepFallback ci acc ev).2) := by
  unfold stepFallback
  dsimp only
  split
  · split
    · exact hinv
    · rename_i _ hfp
      exact fpInv_append gs acc.1 acc.2 _ hinv hfp
  · exact hinv

theorem foldl_fpInv {β : Type} (f : ExtAcc → β → ExtAcc)
    (hf : ∀ (gs : List Requirement) (acc : ExtAcc) (b : β),
      FpInv (gs ++ acc.1, acc.2) → FpInv (gs ++ (f acc b).1, (f acc b).2)) :
    ∀ (l : List β) (gs : List Requirement) (acc : ExtAcc),
      FpInv (gs ++ acc.1, acc.2) →
      FpInv (gs ++ (l.foldl f acc).1, (l.foldl f acc).2) := by
  intro l
  induction l with
  | nil => intro gs acc h; exact h
  | cons b l ih =>
    intro gs acc h
    rw [List.foldl_cons]
    exact ih gs _ (hf gs acc b h)

theorem chunkPatStep_inv (chunk : Str) (ci : Nat) (gs : List Requirement)
    (acc : ExtAcc) (p : Str × Pat) (hinv : FpInv (gs ++ acc.1, acc.2)) :
    FpInv (gs ++ (chunkPatStep chunk ci acc p).1,
      (chunkPatStep chunk ci acc p).2) := by
  unfold chunkPatStep
  exact foldl_fpInv _ (fun gs acc m h => stepPattern_inv chunk ci p.1 gs acc m h)
    _ gs acc hinv

theorem extractFromChunk_inv (chunk : Str) (ci : Nat) (gs : List Requirement)
    (fps : List Str) (hinv : FpInv (gs, fps)) :
    FpInv (gs ++ (extractFromChunk chunk ci fps).1,
      (extractFromChunk chunk ci fps).2) := by
  unfold extractFromChunk
  dsimp only
  have hpat := foldl_fpInv _ (fun gs acc p h => chunkPatStep_inv chunk ci gs acc p h)
    allPatterns gs ([], fps) (by simpa using hinv)
  split
  · exact foldl_fpInv _ (fun gs acc ev h => stepFallback_inv ci gs acc ev h)
      _ gs _ hpat
  · exact hpat

theorem extractStep_inv (acc : ExtAcc) (ci : Nat × Str) (hinv : FpInv acc) :
    FpInv (extractStep acc ci) := by
  unfold extractStep
  dsimp only
  split
  · exact hinv
  · exact extractFromChunk_inv ci.2 ci.1 acc.1 acc.2 hinv

theorem extractFold_inv :
    ∀ (l : List (Nat × Str)) (acc : ExtAcc), FpInv acc →
      FpInv (l.foldl extractStep acc) := by
  intro l
  induction l with
  | nil => intro acc h; exact h
  | cons ci l ih =>
    intro acc h
    rw [List.foldl_cons]
    exact ih _ (extractStep_inv acc ci h)

/-- All fingerprints of one extraction call are pairwise distinct (shared
backbone of the dedup theorems). -/
theorem extract_requirements_fp_aux (text_chunks : List Str) :
    ((extract_requirements text_chunks).map reqFp).Pairwise (· ≠ ·) := by
  unfold extract_requirements
  have hinv := extractFold_inv text_chunks.enum ([], [])
    ⟨fun r hr => absurd hr (List.not_mem_nil r), List.Pairwise.nil⟩
  have hperm := (List.perm_insertionSort reqIdLe
    (text_chunks.enum.foldl extractStep ([], [])).1).map reqFp
  exact (hperm.pairwise_iff (fun h => h.symm)).mpr hinv.2

/-- C2 (amended): within one extraction call, the *content fingerprints*
(trimmed content truncated to 100 characters) of the returned requirements
are pairwise distinct; ids need not be (see the counterexample). -/
theorem extract_fingerprints_pairwise_distinct :
    ∀ text_chunks : List Str,
      ((extract_requirements text_chunks).map reqFp).Pairwise (· ≠ ·) :=
  fun text_chunks => extract_requirements_fp_aux text_chunks

/-- C2 (counterexample): two chunks carrying the same requirement number
with different contents both survive dedup and share the id
`FUNCTIONAL_1`, so ids are *not* pairwise distinct within one call. -/
theorem extract_duplicate_ids_counterexample :
    (extract_requirements [exC0, exC1]).map (·.id) =
      ["FUNCTIONAL_1".toList, "FUNCTIONAL_1".toList] ∧
    ¬ ((extract_requirements [exC0, exC1]).map (·.id)).Pairwise (· ≠ ·) := by
  have h1 : (extract_requirements [exC0, exC1]).map (·.id) =
      ["FUNCTIONAL_1".toList, "FUNCTIONAL_1".toList] := by decide
  refine ⟨h1, ?_⟩
  rw [h1]
  decide

/-- C9: a single extraction call over a chunk list in which some chunk
occurs twice emits each unique requirement content exactly once — the
returned contents are pairwise distinct (the second occurrence's pattern
candidates are suppressed by the content-fingerprint dedup, including the
sentence-splitting fallback that then runs on the duplicate chunk). -/
theorem extract_duplicate_chunk_contents_distinct :
    ∀ (c : Str) (text_chunks : List Str), 2 ≤ text_chunks.count c →
      ((extract_requirements text_chunks).map (·.content)).Pairwise (· ≠ ·) := by
  intro c text_chunks _
  have h := List.pairwise_map.mp (extract_requirements_fp_aux text_chunks)
  rw [List.pairwise_map]
  refine h.imp ?_
  intro a b hfp heq
  exact hfp (by rw [reqFp, reqFp, heq])

/-- Witness for C9: the same chunk twice; the duplicate's pattern candidates
are deduped and its fallback emits the bare sentence, all contents
distinct. -/
theorem extract_duplicate_chunk_contents_distinct_witness :
    2 ≤ [exC0, exC0].count exC0 ∧
    ((extract_requirements [exC0, exC0]).map (·.content)).Pairwise (· ≠ ·) :=
  ⟨by decide,
   extract_duplicate_chunk_contents_distinct exC0 [exC0, exC0] (by decide)⟩

/-! ### Traceability matrix: mapping keys and coverage -/

theorem tmFold_mem {P : Str → Prop} (tw : Finset Str) :
    ∀ (l : List Requirement) (acc : List Str),
      (∀ x ∈ acc, P x) → (∀ r ∈ l, P r.id) →
      ∀ x ∈ l.foldl (tmStep tw) acc, P x := by
  intro l
  induction l with
  | nil => intro acc hacc _ x hx; exact hacc x hx
  | cons r l ih =>
    intro acc hacc hl x hx
    rw [List.foldl_cons] at hx
    refine ih _ ?_ (fun r' hr' => hl r' (List.mem_cons_of_mem _ hr')) x hx
    intro y hy
    unfold tmStep at hy
    split at hy
    · split at hy
      · exact hacc y hy
      · rcases List.mem_append.mp hy with h | h
        · exact hacc y h
        · rcases List.mem_singleton.mp h with rfl
          exact hl r (List.mem_cons_self _ _)
    · exact hacc y hy

theorem mem_find_mapped (tc : TestCase) (reqs : List Requirement) :
    ∀ rid ∈ find_mapped_requirements tc reqs,
      tc.requirement_id = some rid ∨ rid ∈ reqs.map (·.id) := by
  intro rid hrid
  unfold find_mapped_requirements at hrid
  dsimp only at hrid
  refine @tmFold_mem
    (fun x => tc.requirement_id = some x ∨ x ∈ reqs.map (·.id))
    _ reqs _ ?_ ?_ rid hrid
  · intro x hx
    rcases h : tc.requirement_id with - | r
    · rw [h] at hx
      exact absurd hx (List.not_mem_nil x)
    · rw [h] at hx
      dsimp only at hx
      split at hx
      · exact absurd hx (List.not_mem_nil x)
      · rcases List.mem_singleton.mp hx with rfl
        exact Or.inl (h ▸ rfl)
  · intro r hr
    exact Or.inr (List.mem_map_of_mem (·.id) hr)

theorem addMapping_update_keys (ms : List (Str × List Str)) (rid tcid : Str) :
    ((ms.map fun p => if p.1 = rid then (p.1, p.2 ++ [tcid]) else p).map (·.1)) =
      ms.map (·.1) := by
  rw [List.map_map]
  refine List.map_congr_left ?_
  intro p _
  show (if p.1 = rid then (p.1, p.2 ++ [tcid]) else p).1 = p.1
  split <;> rfl

theorem addMapping_keys_iff (ms : List (Str × List Str)) (rid tcid q : Str) :
    q ∈ (addMapping ms rid tcid).map (·.1) ↔ q ∈ ms.map (·.1) ∨ q = rid := by
  unfold addMapping
  split
  · rename_i hany
    rw [addMapping_update_keys]
    constructor
    · exact Or.inl
    · rintro (h | rfl)
      · exact h
      · rcases List.any_eq_true.mp hany with ⟨p, hp, hpr⟩
        have hpq : p.1 = q := of_decide_eq_true hpr
        exact hpq ▸ List.mem_map_of_mem (·.1) hp
  · rw [List.map_append, List.mem_append]
    constructor
    · rintro (h | h)
      · exact Or.inl h
      · rcases List.mem_singleton.mp (by simpa using h) with rfl
        exact Or.inr rfl
    · rintro (h | rfl)
      · exact Or.inl h
      · exact Or.inr (by simp)

theorem addMapping_values_ne_nil (ms : List (Str × List Str)) (rid tcid : Str)
    (h : ∀ kv ∈ ms, kv.2 ≠ []) :
    ∀ kv ∈ addMapping ms rid tcid, kv.2 ≠ [] := by
  intro kv hkv
  unfold addMapping at hkv
  split at hkv
  · simp only [List.mem_map] at hkv
    obtain ⟨p, hp, rfl⟩ := hkv
    split
    · simp
    · exact h p hp
  · rcases List.mem_append.mp hkv with h2 | h2
    · exact h kv h2
    · rcases List.mem_singleton.mp h2 with rfl
      simp

theorem updateCoverFirst_covered_iff (rid : Str) {Q : Str → Prop} :
    ∀ es : List MatrixReqEntry,
      ((es.map (·.id)).Pairwise (· ≠ ·)) →
      (∀ e ∈ es, (e.covered = true ↔ Q e.id)) →
      ∀ e ∈ updateCoverFirst es rid,
        (e.covered = true ↔ (Q e.id ∨ e.id = rid)) := by
  intro es
  induction es with
  | nil => intro _ _ e he; exact absurd he (List.not_mem_nil e)
  | cons e0 es ih =>
    intro hdist hiff e he
    rw [updateCoverFirst] at he
    rw [List.map_cons, List.pairwise_cons] at hdist
    split at he
    · rename_i he0
      rcases List.mem_cons.mp he with rfl | hmem
      · exact ⟨fun _ => Or.inr he0, fun _ => rfl⟩
      · have base := hiff e (List.mem_cons_of_mem _ hmem)
        have hne : e.id ≠ rid := by
          intro hrid
          exact hdist.1 e.id (List.mem_map_of_mem _ hmem) (by rw [hrid, he0])
        constructor
        · intro hc
          exact Or.inl (base.mp hc)
        · rintro (hq | hrid)
          · exact base.mpr hq
          · exact absurd hrid hne
    · rename_i he0
      rcases List.mem_cons.mp he with rfl | hmem
      · have base := hiff e (List.mem_cons_self _ _)
        constructor
        · intro hc
          exact Or.inl (base.mp hc)
        · rintro (hq | hrid)
          · exact base.mpr hq
          · exact absurd hrid he0
      · exact ih hdist.2 (fun e' he' => hiff e' (List.mem_cons_of_mem _ he'))
          e hmem

theorem coverStep_inv (reqIds : List Str) (allowed : Str → Prop)
    (tcid rid : Str) (p : List MatrixReqEntry × List (Str × List Str))
    (hallow : allowed rid) (hp : EMInv reqIds allowed p) :
    EMInv reqIds allowed (coverStep tcid p rid) := by
  obtain ⟨h1, h2, h3, h4⟩ := hp
  refine ⟨?_, ?_, ?_, ?_⟩
  · show (updateCoverFirst p.1 rid).map (·.id) = reqIds
    rw [updateCoverFirst_map_id, h1]
  · intro q hq
    rcases (addMapping_keys_iff p.2 rid tcid q).mp hq with h | rfl
    · exact h2 q h
    · exact hallow
  · exact addMapping_values_ne_nil p.2 rid tcid h3
  · intro hdist e he
    have hdist' : (p.1.map (·.id)).Pairwise (· ≠ ·) := by
      rw [h1]
      exact hdist
    have hiff := updateCoverFirst_covered_iff rid p.1 hdist' (h4 hdist) e he
    rw [hiff]
    exact (addMapping_keys_iff p.2 rid tcid e.id).symm

theorem coverFold_inv (reqIds : List Str) (allowed : Str → Prop) (tcid : Str) :
    ∀ (ids : List Str) (p : List MatrixReqEntry × List (Str × List Str)),
      (∀ rid ∈ ids, allowed rid) → EMInv reqIds allowed p →
      EMInv reqIds allowed (ids.foldl (coverStep tcid) p) := by
  intro ids
  induction ids with
  | nil => intro p _ hp; exact hp
  | cons rid ids ih =>
    intro p hids hp
    rw [List.foldl_cons]
    exact ih _ (fun r hr => hids r (List.mem_cons_of_mem _ hr))
      (coverStep_inv reqIds allowed tcid rid p (hids rid (List.mem_cons_self _ _)) hp)

theorem genStep_inv (reqs : List Requirement) (tcs : List TestCase)
    (tc : TestCase) (htc : tc ∈ tcs)
    (st : List MatrixReqEntry × List (Str × List Str) × List MatrixTcEntry)
    (hst : EMInv (reqs.map (·.id)) (allowedKey reqs tcs) (st.1, st.2.1)) :
    EMInv (reqs.map (·.id)) (allowedKey reqs tcs)
      ((genStep reqs st tc).1, (genStep reqs st tc).2.1) := by
  unfold genStep
  dsimp only
  refine coverFold_inv _ _ _ (find_mapped_requirements tc reqs) (st.1, st.2.1)
    ?_ hst
  intro rid hrid
  rcases mem_find_mapped tc reqs rid hrid with h | h
  · exact Or.inr ⟨tc, htc, h⟩
  · exact Or.inl h

theorem genFold_inv (reqs : List Requirement) (tcs : List TestCase) :
    ∀ (l : List TestCase)
      (st : List MatrixReqEntry × List (Str × List Str) × List MatrixTcEntry),
      (∀ tc ∈ l, tc ∈ tcs) →
      EMInv (reqs.map (·.id)) (allowedKey reqs tcs) (st.1, st.2.1) →
      EMInv (reqs.map (·.id)) (allowedKey reqs tcs)
        ((l.foldl (genStep reqs) st).1, (l.foldl (genStep reqs) st).2.1) := by
  intro l
  induction l with
  | nil => intro st _ hst; exact hst
  | cons tc l ih =>
    intro st hl hst
    rw [List.foldl_cons]
    exact ih _ (fun tc' h => hl tc' (List.mem_cons_of_mem _ h))
      (genStep_inv reqs tcs tc (hl tc (List.mem_cons_self _ _)) st hst)

theorem lookupMapping_ne_nil_iff (ms : List (Str × List Str))
    (hval : ∀ kv ∈ ms, kv.2 ≠ []) (k : Str) :
    lookupMapping ms k ≠ [] ↔ k ∈ ms.map (·.1) := by
  unfold lookupMapping
  rcases hfind : ms.find? (fun p => decide (p.1 = k)) with - | p
  · rw [hfind]
    constructor
    · intro h
      exact absurd rfl h
    · intro hk
      exfalso
      simp only [List.mem_map] at hk
      obtain ⟨p, hp, rfl⟩ := hk
      have h := List.find?_eq_none.mp hfind p hp
      simp at h
  · rw [hfind]
    constructor
    · intro _
      have hmem := List.mem_of_find?_eq_some hfind
      have hpk := List.find?_some hfind
      simp only [decide_eq_true_eq] at hpk
      exact hpk ▸ List.mem_map_of_mem (·.1) hmem
    · intro _
      show p.2 ≠ []
      exact hval p (List.mem_of_find?_eq_some hfind)

/-- C3 (amended): every `mappings` key of a generated matrix is either the
id of some input requirement or the explicit `requirement_id` of some input
test case — a test case naming an unknown id *does* plant that phantom key —
and when the input requirement ids are pairwise distinct, an entry is
covered exactly when `mappings[its id]` is non-empty. -/
theorem matrix_mappings_keys_and_covered :
    ∀ (requirements : List Requirement) (test_cases : List TestCase),
      (∀ q ∈ (generate_matrix requirements test_cases).mappings.map (·.1),
        allowedKey requirements test_cases q) ∧
      ((requirements.map (·.id)).Pairwise (· ≠ ·) →
        ∀ e ∈ (generate_matrix requirements test_cases).requirements,
          (e.covered = true ↔
            lookupMapping (generate_matrix requirements test_cases).mappings
              e.id ≠ [])) := by
  intro reqs tcs
  have hinit : EMInv (reqs.map (·.id)) (allowedKey reqs tcs)
      (reqs.map fun r =>
        ({ id := r.id, rtype := r.rtype, priority := r.priority,
           category := r.category, content := excerpt200 r.content,
           covered := false, test_case_count := 0 } : MatrixReqEntry), []) := by
    refine ⟨?_, ?_, ?_, ?_⟩
    · rw [List.map_map]
      rfl
    · intro q hq
      exact absurd hq (List.not_mem_nil q)
    · intro kv hkv
      exact absurd hkv (List.not_mem_nil kv)
    · intro _ e he
      simp only [List.mem_map] at he
      obtain ⟨r, -, rfl⟩ := he
      constructor
      · intro h
        exact absurd h (by simp)
      · intro h
        exact absurd h (List.not_mem_nil _)
  have hfin := genFold_inv reqs tcs tcs
    ((reqs.map fun r =>
      ({ id := r.id, rtype := r.rtype, priority := r.priority,
         category := r.category, content := excerpt200 r.content,
         covered := false, test_case_count := 0 } : MatrixReqEntry)), [], [])
    (fun tc h => h) hinit
  constructor
  · intro q hq
    exact hfin.2.1 q hq
  · intro hdist e he
    have hiff := hfin.2.2.2 hdist e he
    rw [hiff]
    exact (lookupMapping_ne_nil_iff _ hfin.2.2.1 e.id).symm

/-- C3 (counterexample): a phantom explicit `requirement_id` becomes a
`mappings` key that names no requirement, and with duplicate requirement
ids the second entry stays `covered = false` although `mappings` holds a
non-empty list under its id. -/
theorem matrix_ghost_key_counterexample :
    (generate_matrix [reqGamma] [tcGhost]).mappings.map (·.1) =
      ["GHOST".toList] ∧
    "GHOST".toList ∉ [reqGamma].map (·.id) ∧
    (generate_matrix [reqGamma, reqGammaDup] [tcOverlap]).requirements.map
        (fun e => (e.id, e.covered)) =
      [("FUNCTIONAL_1".toList, true), ("FUNCTIONAL_1".toList, false)] ∧
    lookupMapping (generate_matrix [reqGamma, reqGammaDup] [tcOverlap]).mappings
        "FUNCTIONAL_1".toList = ["TC2".toList] := by
  refine ⟨by decide, by decide, by decide, by decide⟩

/-- Witness for C3 (amended) at a concrete matrix. -/
theorem matrix_mappings_keys_and_covered_witness :
    ("FUNCTIONAL_1".toList ∈
      (generate_matrix [reqGamma] [tcExplicit]).mappings.map (·.1)) ∧
    allowedKey [reqGamma] [tcExplicit] "FUNCTIONAL_1".toList ∧
    (([reqGamma].map (·.id)).Pairwise (· ≠ ·)) ∧
    entryGammaCovered ∈ (generate_matrix [reqGamma] [tcExplicit]).requirements ∧
    (entryGammaCovered.covered = true ↔
      lookupMapping (generate_matrix [reqGamma] [tcExplicit]).mappings
        entryGammaCovered.id ≠ []) :=
  ⟨by decide,
   (matrix_mappings_keys_and_covered [reqGamma] [tcExplicit]).1 _ (by decide),
   by decide,
   by decide,
   (matrix_mappings_keys_and_covered [reqGamma] [tcExplicit]).2 (by decide) _
     (by decide)⟩

end SpecEngine
